import Mathlib

/-!
# AdapterSelection sample (`Samples/AdapterSelection/AdapterSelection/cpp/main.cpp`)

A shallow embedding of the sample's `main`, `ParseArgs`, `LoadLabels` and
`PrintResults`, followed by the properties established for them.

Conventions of the embedding:

* character streams (`cin`, the `ifstream` over `labels.txt`) are a buffer of
  the characters still to be read together with the `eofbit` and `failbit`
  of the C++ stream state;
* `int` values are `Int`s kept inside `[INT_MIN, INT_MAX]`, `size_t` values are
  `Nat`s below `2 ^ 64`, and the conversions between them are explicit;
* everything the program obtains from Windows (adapters, devices, the model
  evaluation, tick counts, the contents of `labels.txt`) is a field of
  `Platform`;
* `float` scores are values of an arbitrary type `σ` compared by a function
  `gt` standing for `operator>`; `PrintResults` takes the sorting algorithm as
  an argument, `stdSort` is the `std::sort` of the Microsoft standard library,
  and where a property is stated for any sorting algorithm only the contract
  of the C++ standard is assumed of it;
* a run produces the list of its observable events and the way it ended.
-/

namespace AdapterSelection

/-! ## Machine integers -/

/-- Largest value of the C++ type `int`. -/
def INT_MAX : Int := 2147483647

/-- Smallest value of the C++ type `int`. -/
def INT_MIN : Int := -2147483648

/-- Result of `int` arithmetic kept in 32 bits (two's complement wrap-around). -/
def wrapInt (v : Int) : Int := (v + 2147483648) % 4294967296 - 2147483648

/-- Conversion of an `int` to the unsigned 64 bit type `size_t`. -/
def toSizeT (v : Int) : Nat := (v % 18446744073709551616).toNat

/-- The value `std::vector<std::string>::max_size()`: requests for more elements
make `resize` throw `std::length_error`. -/
def max_size : Nat := 18446744073709551615 / 32

/-- The constant `EXIT_FAILURE`. -/
def EXIT_FAILURE : Int := 1

/-! ## Character streams -/

/-- A `std::istream`: the characters not yet extracted and the two state bits
the program can observe. -/
structure IStream where
  buf : List Char
  eofbit : Bool
  failbit : Bool
deriving DecidableEq, Repr

/-- A freshly opened stream over the given characters. -/
def IStream.ofChars (cs : List Char) : IStream := ⟨cs, false, false⟩

/-- The member `good()`: no state bit is set. -/
def IStream.good (s : IStream) : Bool := !s.eofbit && !s.failbit

/-- The member `clear()`: resets the state bits. -/
def IStream.clear (s : IStream) : IStream := ⟨s.buf, false, false⟩

/-- The function `isspace` of the "C" locale. -/
def isspace (c : Char) : Bool :=
  c == ' ' || c == '\t' || c == '\n' || c == Char.ofNat 11 || c == Char.ofNat 12 || c == '\r'

/-- Value of a run of decimal digits. -/
def digitsValue (ds : List Char) : Nat :=
  ds.foldl (fun acc d => 10 * acc + (d.toNat - 48)) 0

/-- The call `cin.ignore(numeric_limits<streamsize>::max(), delim)`: discards
characters up to and including the first `delim`; reaching the end of the input
sets `eofbit`. -/
def IStream.ignore (s : IStream) (delim : Char) : IStream :=
  if s.good then
    match s.buf.dropWhile (fun c => c != delim) with
    | [] => ⟨[], true, s.failbit⟩
    | _ :: rest => ⟨rest, s.eofbit, s.failbit⟩
  else ⟨s.buf, s.eofbit, true⟩

/-- Conversion of the field accumulated by `stream >> value`: a sign and a run
of digits.  There is no value when the run is empty or when the number does not
fit in an `int`. -/
def convertField (neg : Bool) (ds : List Char) : Option Int :=
  if ds.isEmpty then none
  else
    let v : Int := if neg then -(digitsValue ds : Int) else (digitsValue ds : Int)
    if INT_MIN ≤ v ∧ v ≤ INT_MAX then some v else none

/-- The extraction `stream >> value` for an `int`: skips white space, reads an
optional sign and the decimal digits after it.  The value is `none` when
`failbit` gets set: the stream was not good, no digit was found, or the number
does not fit in an `int`. -/
def IStream.extractInt (s : IStream) : IStream × Option Int :=
  if s.good then
    match s.buf.dropWhile isspace with
    | [] => (⟨[], true, true⟩, none)
    | c :: rest =>
      let body := if c == '-' || c == '+' then rest else c :: rest
      let rest2 := body.dropWhile Char.isDigit
      let r := convertField (c == '-') (body.takeWhile Char.isDigit)
      (⟨rest2, rest2.isEmpty, r.isNone⟩, r)
  else (⟨s.buf, s.eofbit, true⟩, none)

/-- The call `std::getline(stream, s, delim)`: when the stream is good, `s` is
erased and receives the characters before the first `delim`, which is extracted
and dropped; reaching the end sets `eofbit`, and extracting nothing at all sets
`failbit`.  When the stream is not good, `s` is left alone and `failbit` is set.
The third component is the truth value of the stream afterwards. -/
def getline (f : IStream) (s : List Char) (delim : Char) : IStream × List Char × Bool :=
  if f.good then
    match f.buf.dropWhile (fun c => c != delim) with
    | [] =>
      let line := f.buf.takeWhile (fun c => c != delim)
      (⟨[], true, line.isEmpty⟩, line, !line.isEmpty)
    | _ :: rest => (⟨rest, false, false⟩, f.buf.takeWhile (fun c => c != delim), true)
  else (⟨f.buf, f.eofbit, true⟩, s, false)

/-- The function `atoi`: skips white space, reads an optional sign and decimal
digits, and stops at the first other character.  A value outside the range of
`int` is returned as `INT_MAX` or `INT_MIN`, as the Microsoft C runtime does. -/
def atoi (s : List Char) : Int :=
  match s.dropWhile isspace with
  | [] => 0
  | c :: rest =>
    let body := if c == '-' || c == '+' then rest else c :: rest
    let mag : Int := (digitsValue (body.takeWhile Char.isDigit) : Int)
    let v : Int := if c == '-' then -mag else mag
    if v > INT_MAX then INT_MAX else if v < INT_MIN then INT_MIN else v

/-! ## Runs -/

/-- How a run of the program, or of one of its functions, ended abnormally. -/
inductive Exit where
  /-- The call `exit(code)`. -/
  | exited (code : Int)
  /-- An exception nobody catches, such as `std::out_of_range`. -/
  | threw (what : String)
  /-- An access outside a vector through the unchecked `operator[]`. -/
  | undefined
  /-- The loop was still running when the fuel of the model ran out. -/
  | outOfFuel
deriving DecidableEq, Repr

deriving instance DecidableEq for Except

/-- What the program does that can be observed from outside. -/
inductive Event (α δ : Type) where
  | init_apartment
  | printf (text : String)
  | EnumerateAdapters (excludeSoftware : Bool)
  | GetDesc1 (adapter : α)
  | cinExtract (value : Option Int)
  | cinClear
  | cinIgnore
  | CpuDevice
  | GetLearningModelDeviceFromAdapter (adapter : α)
  | LoadFromFilePath (path : String)
  | CreateSession (device : δ)
  | LoadImageFile (path : String)
  | Bind
  | Evaluate
  | GetAsVectorView
deriving DecidableEq, Repr

/-- Where the evaluation of the model, lines 60 to 92 of `main`, stops. -/
inductive Inference (σ : Type) where
  | loadModelThrows
  | createSessionThrows
  | loadImageFails
  | bindThrows
  | evaluateThrows
  | outputThrows
  | scores (resultVector : List σ)
deriving Repr

/-- Everything `main` obtains from the operating system and the libraries. -/
structure Platform (α δ σ : Type) where
  /-- Result of `AdapterSelection::EnumerateAdapters(true)`. -/
  validAdapters : List α
  /-- The field `Description` of the adapter's `DXGI_ADAPTER_DESC1`, as `%ls` prints it. -/
  Description : α → String
  /-- The object `LearningModelDevice(LearningModelDeviceKind::Cpu)`. -/
  cpuDevice : δ
  /-- The function `AdapterSelection::GetLearningModelDeviceFromAdapter`. -/
  GetLearningModelDeviceFromAdapter : α → δ
  /-- The conversion `hstring(wstring_to_utf8().from_bytes(...))`. -/
  from_bytes : String → String
  /-- Outcome of loading and evaluating the model on a device. -/
  inference : String → String → δ → Inference σ
  /-- Tick counts printed for the load and for the evaluation. -/
  ticksLoad : Int
  ticksRun : Int
  /-- Contents of `labels.txt` next to the executable, `none` when it cannot be opened. -/
  labelsFile : Option (List Char)
  /-- The comparison `operator>` of `float`. -/
  gt : σ → σ → Bool
  /-- The algorithm `std::sort`, given the comparator and the range. -/
  sort : (σ × Nat → σ × Nat → Bool) → List (σ × Nat) → List (σ × Nat)
  /-- The text `printf` produces for a score under `%f`. -/
  fmtF : σ → String

/-- The global variables of the program. -/
structure Globals where
  labels : List String
  modelPath : String
  imagePath : String
deriving DecidableEq, Repr

/-- The globals at program start. -/
def Globals.init : Globals := ⟨[], "", ""⟩

/-- The global `labelsFileName`. -/
def labelsFileName : String := "labels.txt"

/-! ## `ParseArgs` -/

/-- The function `ParseArgs` (lines 96 to 109): refuses fewer than three
arguments, otherwise stores the converted `argv[1]` and `argv[2]` in the
globals `modelPath` and `imagePath`. -/
def ParseArgs (from_bytes : String → String) (argc : Int) (argv : List String)
    (g : Globals) : Bool × Globals :=
  if argc < 3 then (false, g)
  else
    (true, ⟨g.labels, from_bytes (argv.getD 1 ""), from_bytes (argv.getD 2 "")⟩)

/-! ## `LoadLabels` -/

/-- Result of a function that prints and may end the run. -/
structure Result (β : Type) where
  out : List String
  val : Except Exit β
deriving DecidableEq

/-- The member `resize(count)` of `vector<string>`: throws `std::length_error`
beyond `max_size()`, otherwise truncates or pads with empty strings. -/
def resize (v : List String) (count : Nat) : Except Exit (List String) :=
  if count > max_size then .error (.threw "std::length_error")
  else .ok (v.take count ++ List.replicate (count - v.length) "")

/-- The `while` loop of `LoadLabels` (lines 138 to 148).  One unit of fuel is
spent per iteration.  The comparison `labelValue >= labels.size()` and the
subscript `labels[labelValue]` convert the `int` to `size_t`, and
`labelValue + 1` is computed in `int`. -/
def LoadLabels.loop : Nat → IStream → List Char → List String → Except Exit (List String)
  | 0, _, _, _ => .error .outOfFuel
  | fuel + 1, labelFile, s, labels =>
    match getline labelFile s ',' with
    | (_, _, false) => .ok labels
    | (labelFile1, s1, true) =>
      let labelValue := atoi s1
      let resized : Except Exit (List String) :=
        if toSizeT labelValue ≥ labels.length then
          resize labels (toSizeT (wrapInt (labelValue + 1)))
        else .ok labels
      match resized with
      | .error e => .error e
      | .ok labels1 =>
        match getline labelFile1 s1 '\n' with
        | (labelFile2, s2, _) =>
          if toSizeT labelValue < labels1.length then
            LoadLabels.loop fuel labelFile2 s2 (labels1.set (toSizeT labelValue) (String.mk s2))
          else .error .undefined

/-- The function `LoadLabels` (lines 127 to 149) on the contents of the labels
file and the current value of the global `labels`.  The loop gets more fuel than
it can use (see `LoadLabels_fuel`). -/
def LoadLabels (labelsFile : Option (List Char)) (labels : List String) :
    Result (List String) :=
  match labelsFile with
  | none =>
    ⟨["failed to load the " ++ labelsFileName ++
        " file.  Make sure it exists in the same folder as the app\r\n"],
      .error (.exited EXIT_FAILURE)⟩
  | some cs => ⟨[], LoadLabels.loop (cs.length + 1) (IStream.ofChars cs) [] labels⟩

/-! ## `PrintResults` -/

/-- The first loop of `PrintResults` (lines 181 to 186): pairs every score with
its position, counting from `i`. -/
def PrintResults.pairs {σ : Type} : Nat → List σ → List (σ × Nat)
  | _, [] => []
  | i, x :: xs => (x, i) :: PrintResults.pairs (i + 1) xs

/-- The line printed for one result. -/
def resultLine {σ : Type} (fmtF : σ → String) (label : String) (score : σ) : String :=
  label ++ " with confidence of " ++ fmtF score ++ "\n"

/-- The display loop of `PrintResults` (lines 191 to 195), from position `i`
for `n` more iterations: `sortedResults.at(i)` is checked, `labels[...]` is not. -/
def PrintResults.display {σ : Type} (fmtF : σ → String) (labels : List String)
    (sortedResults : List (σ × Nat)) : Nat → Nat → Result Unit
  | _, 0 => ⟨[], .ok ()⟩
  | i, n + 1 =>
    match sortedResults[i]? with
    | none => ⟨[], .error (.threw "std::out_of_range")⟩
    | some curr =>
      match labels[curr.2]? with
      | none => ⟨[], .error .undefined⟩
      | some label =>
        let r := PrintResults.display fmtF labels sortedResults (i + 1) n
        ⟨resultLine fmtF label curr.1 :: r.out, r.val⟩

/-- The function `PrintResults` (lines 175 to 196).  The value is the global
`labels` after the call. -/
def PrintResults {σ : Type} (gt : σ → σ → Bool)
    (sort : (σ × Nat → σ × Nat → Bool) → List (σ × Nat) → List (σ × Nat))
    (fmtF : σ → String) (labelsFile : Option (List Char)) (labels : List String)
    (results : List σ) : Result (List String) :=
  let loaded := LoadLabels labelsFile labels
  match loaded.val with
  | .error e => ⟨loaded.out, .error e⟩
  | .ok labels1 =>
    let sortedResults := sort (fun a b => gt a.1 b.1) (PrintResults.pairs 0 results)
    let shown := PrintResults.display fmtF labels1 sortedResults 0 3
    ⟨loaded.out ++ shown.out, shown.val.map (fun _ => labels1)⟩

/-! ## `main` -/

/-- A run of `main`: its events in order, what is left of `cin`, the globals,
and either the value `main` returned or the way the run ended. -/
structure Run (α δ : Type) where
  trace : List (Event α δ)
  cin : IStream
  globals : Globals
  exit : Except Exit Int
deriving DecidableEq

/-- The loop of lines 35 to 40: one description line per adapter, numbered from `i`. -/
def main.display {α δ σ : Type} (P : Platform α δ σ) : Nat → List α → List (Event α δ)
  | _, [] => []
  | i, currAdapter :: rest =>
    Event.GetDesc1 currAdapter ::
      Event.printf ("Index: " ++ toString i ++ ", Description: " ++
        P.Description currAdapter ++ "\n") ::
      main.display P (i + 1) rest

/-- The loop of lines 51 to 55 with `n` adapters: the events, the remaining
input and the index accepted.  One unit of fuel is spent per attempt. -/
def main.select {α δ : Type} (n : Nat) :
    Nat → IStream → List (Event α δ) × IStream × Except Exit Int
  | 0, cin => ([], cin, .error .outOfFuel)
  | fuel + 1, cin =>
    match cin.extractInt with
    | (cin1, r) =>
      let again : Bool :=
        match r with
        | none => true
        | some selectedIndex => decide (selectedIndex < 0) || decide (toSizeT selectedIndex ≥ n)
      if again then
        match main.select n fuel ((cin1.clear).ignore '\n') with
        | (t, cin2, v) =>
          (Event.cinExtract r :: Event.cinClear :: Event.cinIgnore ::
            Event.printf "Invalid index, please try again.\n" :: t, cin2, v)
      else ([Event.cinExtract r], cin1, .ok (r.getD 0))

/-- Lines 42 to 58: the device `main` runs the model on. -/
def main.device {α δ σ : Type} (P : Platform α δ σ) (fuel : Nat) (cin : IStream) :
    List (Event α δ) × IStream × Except Exit δ :=
  if P.validAdapters.length = 0 then
    ([Event.printf "There are no available adapters, running on CPU...\n", Event.CpuDevice],
      cin, .ok P.cpuDevice)
  else
    match main.select P.validAdapters.length fuel cin with
    | (t, cin1, .error e) =>
      (Event.printf "Please enter the index of the adapter you want to use...\n" :: t,
        cin1, .error e)
    | (t, cin1, .ok selectedIndex) =>
      let t1 := Event.printf "Please enter the index of the adapter you want to use...\n" ::
        (t ++ [Event.printf ("Selected adapter at index " ++ toString selectedIndex ++ "\n")])
      match P.validAdapters[toSizeT selectedIndex]? with
      | none => (t1, cin1, .error (.threw "std::out_of_range"))
      | some adapter =>
        (t1 ++ [Event.GetLearningModelDeviceFromAdapter adapter], cin1,
          .ok (P.GetLearningModelDeviceFromAdapter adapter))

/-- Lines 60 to 92: loading, binding and evaluating the model. -/
def main.infer {α δ σ : Type} (P : Platform α δ σ) (g : Globals) (device : δ) :
    List (Event α δ) × Except Exit (List σ) :=
  let e1 : List (Event α δ) :=
    [Event.printf ("Loading modelfile '" ++ g.modelPath ++ "' on the selected device\n"),
      Event.LoadFromFilePath g.modelPath]
  let e2 := e1 ++ [Event.printf ("model file loaded in " ++ toString P.ticksLoad ++ " ticks\n"),
    Event.CreateSession device]
  let e3 := e2 ++ [Event.printf "Loading the image...\n", Event.LoadImageFile g.imagePath]
  let e4 := e3 ++ [Event.printf "Binding...\n", Event.Bind]
  let e5 := e4 ++ [Event.printf "Running the model...\n", Event.Evaluate]
  let e6 := e5 ++ [Event.printf ("model run took " ++ toString P.ticksRun ++ " ticks\n"),
    Event.GetAsVectorView]
  match P.inference g.modelPath g.imagePath device with
  | .loadModelThrows => (e1, .error (.threw "winrt::hresult_error"))
  | .createSessionThrows => (e2, .error (.threw "winrt::hresult_error"))
  | .loadImageFails =>
    (e3 ++ [Event.printf
      "failed to load the image file, make sure you are using fully qualified paths\r\n"],
      .error (.exited EXIT_FAILURE))
  | .bindThrows => (e4, .error (.threw "winrt::hresult_error"))
  | .evaluateThrows => (e5, .error (.threw "winrt::hresult_error"))
  | .outputThrows => (e6, .error (.threw "winrt::hresult_error"))
  | .scores resultVector => (e6, .ok resultVector)

/-- The function `main` (lines 24 to 94) on the command line `argv` (with
`argc = argv.length`) and the standard input `cin`. -/
def main {α δ σ : Type} (P : Platform α δ σ) (fuel : Nat) (argv : List String)
    (cin : IStream) : Run α δ :=
  match ParseArgs P.from_bytes argv.length argv Globals.init with
  | (false, g) =>
    ⟨[Event.init_apartment,
        Event.printf ("Usage: " ++ argv.getD 0 "(null)" ++ " [modelfile] [imagefile]")],
      cin, g, .ok (-1)⟩
  | (true, g) =>
    let t1 : List (Event α δ) :=
      Event.init_apartment :: Event.EnumerateAdapters true :: main.display P 0 P.validAdapters
    match main.device P fuel cin with
    | (t2, cin1, .error e) => ⟨t1 ++ t2, cin1, g, .error e⟩
    | (t2, cin1, .ok device) =>
      match main.infer P g device with
      | (t3, .error e) => ⟨t1 ++ t2 ++ t3, cin1, g, .error e⟩
      | (t3, .ok resultVector) =>
        let printed := PrintResults P.gt P.sort P.fmtF P.labelsFile g.labels resultVector
        let t4 : List (Event α δ) := printed.out.map Event.printf
        match printed.val with
        | .error e => ⟨t1 ++ t2 ++ t3 ++ t4, cin1, g, .error e⟩
        | .ok labels1 => ⟨t1 ++ t2 ++ t3 ++ t4, cin1, ⟨labels1, g.modelPath, g.imagePath⟩, .ok 0⟩

/-! ## Observers of a trace -/

/-- The values of the successive `cin >> selectedIndex` attempts of a trace. -/
def reads {α δ : Type} : List (Event α δ) → List (Option Int)
  | [] => []
  | Event.cinExtract r :: t => r :: reads t
  | _ :: t => reads t

/-- The texts a trace prints, in order. -/
def printed {α δ : Type} : List (Event α δ) → List String
  | [] => []
  | Event.printf s :: t => s :: printed t
  | _ :: t => printed t

/-- The description line `main` prints for the adapter shown under index `i`. -/
def descriptionLine {α δ σ : Type} (P : Platform α δ σ) (i : Nat) (a : α) : String :=
  "Index: " ++ toString i ++ ", Description: " ++ P.Description a ++ "\n"

/-- An attempt the selection loop rejects when there are `n` adapters: the
extraction failed, or it gave an integer outside `[0, n)`. -/
def Rejected (n : Nat) (r : Option Int) : Prop :=
  r = none ∨ ∃ v : Int, r = some v ∧ (v < 0 ∨ (n : Int) ≤ v)

/-- The text of the re-prompt. -/
def invalidIndexLine : String := "Invalid index, please try again.\n"

/-- The text of the prompt for an index. -/
def promptLine : String := "Please enter the index of the adapter you want to use...\n"

/-- The text confirming the selected index. -/
def selectedLine (k : Int) : String := "Selected adapter at index " ++ toString k ++ "\n"

/-- The usage message for a command line. -/
def usageLine (argv : List String) : String :=
  "Usage: " ++ argv.getD 0 "(null)" ++ " [modelfile] [imagefile]"

/-- The text announcing the CPU fallback. -/
def cpuLine : String := "There are no available adapters, running on CPU...\n"

/-- The requirement of `std::sort` on its comparator: a strict weak ordering. -/
structure StrictWeakOrder {β : Type} (comp : β → β → Bool) : Prop where
  irrefl : ∀ a, comp a a = false
  trans : ∀ a b c, comp a b = true → comp b c = true → comp a c = true
  incomp_trans : ∀ a b c, comp a b = false → comp b a = false → comp b c = false →
    comp c b = false → comp a c = false ∧ comp c a = false

/-- The comparison `a > b` on scores counted in millionths. -/
def intGt (a b : Int) : Bool := decide (a > b)

/-- The text of `%f` for a score counted in millionths: the integer part, a
point and six decimals. -/
def fmtMicro (v : Int) : String :=
  let frac := toString (v.natAbs % 1000000)
  (if v < 0 then "-" else "") ++ toString (v.natAbs / 1000000) ++ "." ++
    String.mk (List.replicate (6 - frac.length) '0') ++ frac

/-! ## The algorithm `std::sort` of the Microsoft standard library

The sample is a Windows program, so `std::sort` is the one of the Microsoft
standard library: insertion sort for ranges of at most `_ISORT_MAX` elements,
otherwise quicksort around a guessed median, with heap sort when the budget of
divisions is used up.  Ranges are lists and iterators are positions. -/

/-- The constant `_ISORT_MAX`: ranges of at most this many elements are ordered
by insertion sort. -/
def ISORT_MAX : Nat := 32

/-- The call `swap(*(first + i), *(first + j))` on a range held as a list. -/
def swapAt {β : Type} (l : List β) (i j : Nat) : List β :=
  match l[i]?, l[j]? with
  | some a, some b => (l.set i b).set j a
  | _, _ => l

/-- The test `pred(*(first + i), *(first + j))`. -/
def predAt {β : Type} (comp : β → β → Bool) (l : List β) (i j : Nat) : Bool :=
  match l[i]?, l[j]? with
  | some a, some b => comp a b
  | _, _ => false

/-- One round of `_Insertion_sort_unchecked`: the element `val` that follows the
ordered part `done` goes to the front when it precedes the first element, and
otherwise moves down past the elements it precedes, from the back. -/
def insertNext {β : Type} (comp : β → β → Bool) (done : List β) (val : β) : List β :=
  match done with
  | [] => [val]
  | first :: _ =>
    if comp val first then val :: done
    else
      (done.reverse.dropWhile (fun e => comp val e)).reverse ++
        val :: (done.reverse.takeWhile (fun e => comp val e)).reverse

/-- The function `_Insertion_sort_unchecked` on a whole range. -/
def insertionSort {β : Type} (comp : β → β → Bool) (l : List β) : List β :=
  l.foldl (insertNext comp) []

/-- Applies `f` to the part `[first, last)` of a range and leaves the rest. -/
def onRange {β : Type} (f : List β → List β) (l : List β) (first last : Nat) : List β :=
  l.take first ++ f ((l.drop first).take (last - first)) ++ (l.drop first).drop (last - first)

/-- The function `_Med3_unchecked`: orders the elements at three positions so
that the median is in the middle. -/
def med3 {β : Type} (comp : β → β → Bool) (l : List β) (first mid last : Nat) : List β :=
  let l1 := if predAt comp l mid first then swapAt l mid first else l
  if predAt comp l1 last mid then
    let l2 := swapAt l1 last mid
    if predAt comp l2 mid first then swapAt l2 mid first else l2
  else l1

/-- The function `_Guess_median_unchecked`, `last` being the position of the
last element. -/
def guessMedian {β : Type} (comp : β → β → Bool) (l : List β) (first mid last : Nat) :
    List β :=
  let count := last - first
  if 40 < count then
    let step := (count + 1) / 8
    let twoStep := step * 2
    let l1 := med3 comp l first (first + step) (first + twoStep)
    let l2 := med3 comp l1 (mid - step) mid (mid + step)
    let l3 := med3 comp l2 (last - twoStep) (last - step) last
    med3 comp l3 (first + step) mid (last - step)
  else med3 comp l first mid last

/-- The first `while` of `_Partition_by_median_guess_unchecked`: extends the
pivot range downwards over equivalent elements; the value is the new `_Pfirst`. -/
def growDown {β : Type} (comp : β → β → Bool) (l : List β) (first : Nat) : Nat → Nat
  | 0 => 0
  | p + 1 =>
    if first < p + 1 && !predAt comp l p (p + 1) && !predAt comp l (p + 1) p then
      growDown comp l first p
    else p + 1

/-- The second `while`: extends the pivot range upwards; `fuel` bounds the
iterations and the value is the new `_Plast`. -/
def growUp {β : Type} (comp : β → β → Bool) (l : List β) (last pfirst : Nat) :
    Nat → Nat → Nat
  | 0, plast => plast
  | fuel + 1, plast =>
    if plast < last && !predAt comp l plast pfirst && !predAt comp l pfirst plast then
      growUp comp l last pfirst fuel (plast + 1)
    else plast

/-- The upward scan of the partition loop, on the state `(range, _Plast, _Gfirst)`. -/
def scanUp {β : Type} (comp : β → β → Bool) (last pfirst : Nat) :
    Nat → List β × Nat × Nat → List β × Nat × Nat
  | 0, s => s
  | fuel + 1, (l, plast, gfirst) =>
    if gfirst < last then
      if predAt comp l pfirst gfirst then scanUp comp last pfirst fuel (l, plast, gfirst + 1)
      else if predAt comp l gfirst pfirst then (l, plast, gfirst)
      else if plast != gfirst then
        scanUp comp last pfirst fuel (swapAt l plast gfirst, plast + 1, gfirst + 1)
      else scanUp comp last pfirst fuel (l, plast + 1, gfirst + 1)
    else (l, plast, gfirst)

/-- The downward scan of the partition loop, on the state `(range, _Pfirst, _Glast)`. -/
def scanDown {β : Type} (comp : β → β → Bool) (first : Nat) :
    Nat → List β × Nat × Nat → List β × Nat × Nat
  | 0, s => s
  | fuel + 1, (l, pfirst, glast) =>
    if first < glast then
      if predAt comp l (glast - 1) pfirst then scanDown comp first fuel (l, pfirst, glast - 1)
      else if predAt comp l pfirst (glast - 1) then (l, pfirst, glast)
      else if pfirst - 1 != glast - 1 then
        scanDown comp first fuel (swapAt l (pfirst - 1) (glast - 1), pfirst - 1, glast - 1)
      else scanDown comp first fuel (l, pfirst - 1, glast - 1)
    else (l, pfirst, glast)

/-- The loop `for (;;)` of `_Partition_by_median_guess_unchecked`, on the state
`(range, _Pfirst, _Plast, _Gfirst, _Glast)`; the value is the range with the
bounds of the pivot range. -/
def partitionLoop {β : Type} (comp : β → β → Bool) (first last : Nat) :
    Nat → List β × Nat × Nat × Nat × Nat → List β × Nat × Nat
  | 0, (l, pfirst, plast, _, _) => (l, pfirst, plast)
  | fuel + 1, (l, pfirst, plast, gfirst, glast) =>
    match scanUp comp last pfirst (last - gfirst) (l, plast, gfirst) with
    | (l1, plast1, gfirst1) =>
      match scanDown comp first glast (l1, pfirst, glast) with
      | (l2, pfirst2, glast2) =>
        if glast2 == first && gfirst1 == last then (l2, pfirst2, plast1)
        else if glast2 == first then
          let l3 := if plast1 != gfirst1 then swapAt l2 pfirst2 plast1 else l2
          partitionLoop comp first last fuel
            (swapAt l3 pfirst2 gfirst1, pfirst2 + 1, plast1 + 1, gfirst1 + 1, glast2)
        else if gfirst1 == last then
          let l3 := if glast2 - 1 != pfirst2 - 1 then swapAt l2 (glast2 - 1) (pfirst2 - 1) else l2
          partitionLoop comp first last fuel
            (swapAt l3 (pfirst2 - 1) (plast1 - 1), pfirst2 - 1, plast1 - 1, gfirst1, glast2 - 1)
        else
          partitionLoop comp first last fuel
            (swapAt l2 gfirst1 (glast2 - 1), pfirst2, plast1, gfirst1 + 1, glast2 - 1)

/-- The function `_Partition_by_median_guess_unchecked` on `[first, last)`. -/
def partitionByMedianGuess {β : Type} (comp : β → β → Bool) (l : List β) (first last : Nat) :
    List β × Nat × Nat :=
  let mid := first + (last - first) / 2
  let l1 := guessMedian comp l first mid (last - 1)
  let pfirst := growDown comp l1 first mid
  let plast := growUp comp l1 last pfirst (last - mid) (mid + 1)
  partitionLoop comp first last (2 * (last - first) + 2) (l1, pfirst, plast, plast, pfirst)

/-- The function `_Push_heap_by_index`: moves the hole up to `top` or to where
`val` belongs, and drops `val` there. -/
def pushHeapByIndex {β : Type} (comp : β → β → Bool) (top : Nat) (val : β) :
    Nat → List β → Nat → List β
  | 0, l, hole => l.set hole val
  | fuel + 1, l, hole =>
    match l[(hole - 1) / 2]? with
    | some parent =>
      if top < hole && comp parent val then
        pushHeapByIndex comp top val fuel (l.set hole parent) ((hole - 1) / 2)
      else l.set hole val
    | none => l.set hole val

/-- The `while` of `_Pop_heap_hole_by_index`: moves the hole down to the larger
child, on the state `(range, hole, idx)`. -/
def siftDown {β : Type} (comp : β → β → Bool) (maxNonLeaf : Nat) :
    Nat → List β × Nat × Nat → List β × Nat × Nat
  | 0, s => s
  | fuel + 1, (l, hole, idx) =>
    if idx < maxNonLeaf then
      let idx1 := 2 * idx + 2
      let idx2 := if predAt comp l idx1 (idx1 - 1) then idx1 - 1 else idx1
      match l[idx2]? with
      | some child => siftDown comp maxNonLeaf fuel (l.set hole child, idx2, idx2)
      | none => (l, hole, idx)
    else (l, hole, idx)

/-- The function `_Pop_heap_hole_by_index`. -/
def popHeapHoleByIndex {β : Type} (comp : β → β → Bool) (l : List β) (hole bottom : Nat)
    (val : β) : List β :=
  let maxNonLeaf := (bottom - 1) / 2
  match siftDown comp maxNonLeaf bottom (l, hole, hole) with
  | (l1, hole1, idx1) =>
    if idx1 == maxNonLeaf && bottom % 2 == 0 then
      match l1[bottom - 1]? with
      | some child =>
        pushHeapByIndex comp hole val bottom (l1.set hole1 child) (bottom - 1)
      | none => l1
    else pushHeapByIndex comp hole val bottom l1 hole1

/-- The loop of `_Make_heap_unchecked`, for the holes below `hole`. -/
def makeHeapLoop {β : Type} (comp : β → β → Bool) (bottom : Nat) : Nat → List β → List β
  | 0, l => l
  | hole + 1, l =>
    match l[hole]? with
    | some val => makeHeapLoop comp bottom hole (popHeapHoleByIndex comp l hole bottom val)
    | none => l

/-- The loop of `_Sort_heap_unchecked`, `last` being the length of the heap. -/
def sortHeapLoop {β : Type} (comp : β → β → Bool) : Nat → List β → List β
  | 0, l => l
  | last + 1, l =>
    if 2 ≤ last + 1 then
      match l[last]?, l[0]? with
      | some val, some top =>
        sortHeapLoop comp last (popHeapHoleByIndex comp (l.set last top) 0 last val)
      | _, _ => l
    else l

/-- The heap sort `_Make_heap_unchecked` followed by `_Sort_heap_unchecked`. -/
def heapSort {β : Type} (comp : β → β → Bool) (l : List β) : List β :=
  sortHeapLoop comp l.length (makeHeapLoop comp l.length (l.length / 2) l)

/-- The function `_Sort_unchecked` on `[first, last)` with the budget `ideal`
of divisions.  The fuel bounds the depth of the recursion. -/
def sortUnchecked {β : Type} (comp : β → β → Bool) :
    Nat → List β → Nat → Nat → Nat → List β
  | 0, l, _, _, _ => l
  | fuel + 1, l, first, last, ideal =>
    if last - first ≤ ISORT_MAX then onRange (insertionSort comp) l first last
    else if ideal = 0 then onRange (heapSort comp) l first last
    else
      match partitionByMedianGuess comp l first last with
      | (l1, midFirst, midSecond) =>
        let ideal1 := ideal / 2 + ideal / 4
        if midFirst - first < last - midSecond then
          sortUnchecked comp fuel (sortUnchecked comp fuel l1 first midFirst ideal1)
            midSecond last ideal1
        else
          sortUnchecked comp fuel (sortUnchecked comp fuel l1 midSecond last ideal1)
            first midFirst ideal1

/-- The algorithm `std::sort(first, last, pred)` of the Microsoft standard
library, on the range held as a list. -/
def stdSort {β : Type} (comp : β → β → Bool) (l : List β) : List β :=
  sortUnchecked comp (l.length + 1) l 0 l.length l.length

/-- A score as `operator>` sees it: not a number, or a number (counted in
millionths). -/
inductive Score where
  | nan
  | num (millionths : Int)
deriving DecidableEq, Repr

/-- The comparison `a > b` of scores: false as soon as one side is not a number. -/
def Score.gt : Score → Score → Bool
  | .num a, .num b => decide (a > b)
  | _, _ => false

/-- Two scores compare alike: each is greater than what the other is greater
than, and smaller than what the other is smaller than.  Equal scores do. -/
def SameScore {σ : Type} (gt : σ → σ → Bool) (s t : σ) : Prop :=
  ∀ z, gt s z = gt t z ∧ gt z s = gt z t

/-- A vector of 33 scores: 0.5, 0.9, fourteen times 0.7, 0.9, sixteen times 0.1. -/
def tieScores : List Int :=
  [500000, 900000] ++ List.replicate 14 700000 ++ [900000] ++ List.replicate 16 100000

/-- A platform with two adapters and three labelled classes, on which the model
of the program is run in the examples. -/
def samplePlatform : Platform String String Int where
  validAdapters := ["gpu0", "gpu1"]
  Description := fun a => a
  cpuDevice := "cpu"
  GetLearningModelDeviceFromAdapter := fun a => "device of " ++ a
  from_bytes := fun s => s
  inference := fun _ _ _ => Inference.scores [100000, 900000, 50000]
  ticksLoad := 3
  ticksRun := 4
  labelsFile := some "0,cat\n1,dog\n2,fish\n".toList
  gt := intGt
  sort := stdSort
  fmtF := fmtMicro

/-- The decimal notation of a natural number, as written into a labels file. -/
def decimal (i : Nat) : List Char := Nat.toDigits 10 i

/-- The record `<i>,<text>` followed by a newline. -/
def record (r : Nat × String) : List Char := decimal r.1 ++ ',' :: (r.2.data ++ ['\n'])

/-- The labels file made of the given records, in this order. -/
def labelsFileOf : List (Nat × String) → List Char
  | [] => []
  | r :: rs => record r ++ labelsFileOf rs

/-- The table after one record is stored: grown with empty strings up to the
index when it is too short, then overwritten at the index. -/
def store (labels : List String) (r : Nat × String) : List String :=
  (labels ++ List.replicate (r.1 + 1 - labels.length) "").set r.1 r.2

/-- The table after the records are stored one after the other. -/
def storeAll (labels : List String) (records : List (Nat × String)) : List String :=
  records.foldl store labels

/-- The diagnostic of `LoadLabels` for a labels file that cannot be opened. -/
def missingLabelsLine : String :=
  "failed to load the labels.txt file.  Make sure it exists in the same folder as the app\r\n"

/-- The condition under which `LoadLabels` stores a record as written: the
index plus one fits in an `int` and the text has no newline. -/
def RecordOk (r : Nat × String) : Prop := (r.1 : Int) + 1 ≤ INT_MAX ∧ '\n' ∉ r.2.data

/-! ## Facts about the stream functions -/

theorem toSizeT_of_int_range (v : Int) (h0 : 0 ≤ v) (h1 : v ≤ INT_MAX) :
    (toSizeT v : Int) = v := by
  unfold toSizeT
  unfold INT_MAX at h1
  have : v % 18446744073709551616 = v := Int.emod_eq_of_lt h0 (by omega)
  rw [this]
  exact Int.toNat_of_nonneg h0

theorem convertField_range (neg : Bool) (ds : List Char) (v : Int)
    (h : convertField neg ds = some v) : INT_MIN ≤ v ∧ v ≤ INT_MAX := by
  unfold convertField at h
  by_cases he : ds.isEmpty = true
  · simp [he] at h
  · simp only [he] at h
    by_cases hr : INT_MIN ≤ (if neg = true then -(digitsValue ds : Int) else (digitsValue ds : Int)) ∧
        (if neg = true then -(digitsValue ds : Int) else (digitsValue ds : Int)) ≤ INT_MAX
    · simp only [hr] at h
      simp at h
      rw [← h]
      exact hr
    · simp only [hr] at h
      simp at h

theorem extractInt_range (s s1 : IStream) (v : Int) (h : s.extractInt = (s1, some v)) :
    INT_MIN ≤ v ∧ v ≤ INT_MAX := by
  unfold IStream.extractInt at h
  split at h
  · split at h
    · simp at h
    · simp only [Prod.mk.injEq] at h
      exact convertField_range _ _ v h.2
  · simp at h

/-! ## The selection loop -/

theorem select_ok (n : Nat) : ∀ (fuel : Nat) (cin : IStream) (t : List (Event α δ))
    (cin1 : IStream) (k : Int), main.select n fuel cin = (t, cin1, .ok k) →
    0 ≤ k ∧ k < (n : Int) ∧ k ≤ INT_MAX ∧
      ∃ earlier : List (Option Int), reads t = earlier ++ [some k] ∧
        (∀ r ∈ earlier, Rejected n r) ∧
        printed t = List.replicate earlier.length invalidIndexLine := by
  intro fuel
  induction fuel with
  | zero => intro cin t cin1 k h; simp [main.select] at h
  | succ fuel ih =>
    intro cin t cin1 k h
    rw [main.select] at h
    rcases hx : cin.extractInt with ⟨cinA, r⟩
    rw [hx] at h
    simp only at h
    cases r with
    | none =>
      simp only [if_true] at h
      rcases hrec : main.select (α := α) (δ := δ) n fuel ((cinA.clear).ignore '\n')
        with ⟨t2, cin2, v2⟩
      rw [hrec] at h
      simp only [Prod.mk.injEq] at h
      obtain ⟨ht, hc, hv⟩ := h
      subst ht; subst hc; subst hv
      obtain ⟨h0, h1, h2, earlier, he, hrej, hp⟩ := ih _ _ _ _ hrec
      refine ⟨h0, h1, h2, none :: earlier, ?_, ?_, ?_⟩
      · simp [reads, he]
      · intro r hr
        rcases List.mem_cons.1 hr with h | h
        · exact Or.inl h
        · exact hrej r h
      · simp [printed, hp, invalidIndexLine, List.replicate_succ]
    | some v =>
      have hrange := extractInt_range cin cinA v hx
      by_cases hagain : (decide (v < 0) || decide (toSizeT v ≥ n)) = true
      · simp only [hagain, if_true] at h
        rcases hrec : main.select (α := α) (δ := δ) n fuel ((cinA.clear).ignore '\n')
          with ⟨t2, cin2, v2⟩
        rw [hrec] at h
        simp only [Prod.mk.injEq] at h
        obtain ⟨ht, hc, hv⟩ := h
        subst ht; subst hc; subst hv
        obtain ⟨h0, h1, h2, earlier, he, hrej, hp⟩ := ih _ _ _ _ hrec
        refine ⟨h0, h1, h2, some v :: earlier, ?_, ?_, ?_⟩
        · simp [reads, he]
        · intro r hr
          rcases List.mem_cons.1 hr with h | h
          · refine Or.inr ⟨v, h, ?_⟩
            by_cases hneg : v < 0
            · exact Or.inl hneg
            · right
              have hs := toSizeT_of_int_range v (not_lt.1 hneg) hrange.2
              simp only [hneg, decide_False, Bool.false_or, decide_eq_true_eq] at hagain
              omega
          · exact hrej r h
        · simp [printed, hp, invalidIndexLine, List.replicate_succ]
      · simp only [hagain] at h
        simp only [Bool.false_eq_true, if_false, Prod.mk.injEq, Option.getD_some,
          Except.ok.injEq] at h
        obtain ⟨ht, hc, hv⟩ := h
        subst ht; subst hc; subst hv
        simp only [Bool.or_eq_true, decide_eq_true_eq, not_or, not_lt, ge_iff_le, not_le]
          at hagain
        have hs := toSizeT_of_int_range v hagain.1 hrange.2
        refine ⟨hagain.1, by omega, hrange.2, [], ?_, ?_, ?_⟩
        · simp [reads]
        · intro r hr; simp at hr
        · simp [printed]

/-! ## Traces of `main` -/

theorem reads_append (t u : List (Event α δ)) : reads (t ++ u) = reads t ++ reads u := by
  induction t with
  | nil => rfl
  | cons e t ih => cases e <;> simp [reads, ih]

theorem printed_append (t u : List (Event α δ)) :
    printed (t ++ u) = printed t ++ printed u := by
  induction t with
  | nil => rfl
  | cons e t ih => cases e <;> simp [printed, ih]

theorem reads_map_printf (l : List String) :
    reads (l.map (Event.printf : String → Event α δ)) = [] := by
  induction l with
  | nil => rfl
  | cons s l ih => simp [reads, ih]

theorem reads_display (P : Platform α δ σ) : ∀ (l : List α) (i : Nat),
    reads (main.display P i l) = [] := by
  intro l
  induction l with
  | nil => intro i; rfl
  | cons a l ih => intro i; simp [main.display, reads, ih]

theorem reads_infer (P : Platform α δ σ) (g : Globals) (d : δ) :
    reads (main.infer P g d).1 = [] := by
  unfold main.infer
  cases P.inference g.modelPath g.imagePath d <;> simp [reads]

theorem printed_display (P : Platform α δ σ) : ∀ (l : List α) (s : Nat),
    printed (main.display P s l) =
      List.ofFn (fun i : Fin l.length => descriptionLine P (s + i.val) (l.get i)) := by
  intro l
  induction l with
  | nil => intro s; rfl
  | cons a l ih =>
    intro s
    have h1 : printed (main.display P s (a :: l)) =
        descriptionLine P s a :: printed (main.display P (s + 1) l) := by
      simp [main.display, printed, descriptionLine]
    rw [h1, ih (s + 1)]
    simp only [List.length_cons, List.ofFn_succ, Fin.val_zero, Nat.add_zero, List.get_eq_getElem,
      Fin.val_succ, List.getElem_cons_succ, List.getElem_cons_zero, descriptionLine]
    have : ∀ i : Fin l.length, s + 1 + i.val = s + (i.val + 1) := fun i => by omega
    simp only [this]

theorem ParseArgs_true (fb : String → String) (argv : List String) (g : Globals)
    (h : 3 ≤ argv.length) :
    ParseArgs fb argv.length argv g =
      (true, ⟨g.labels, fb (argv.getD 1 ""), fb (argv.getD 2 "")⟩) := by
  unfold ParseArgs
  have : ¬ ((argv.length : Int) < 3) := by omega
  simp [this]

theorem main_trace_starts (P : Platform α δ σ) (fuel : Nat) (argv : List String)
    (cin : IStream) (h : 3 ≤ argv.length) :
    ∃ rest, (main P fuel argv cin).trace =
      Event.init_apartment :: Event.EnumerateAdapters true ::
        (main.display P 0 P.validAdapters ++ (main.device P fuel cin).1 ++ rest) := by
  unfold main
  rw [ParseArgs_true _ _ _ h]
  simp only
  rcases hd : main.device P fuel cin with ⟨t2, cin1, r⟩
  cases r with
  | error e => exact ⟨[], by simp⟩
  | ok device =>
    simp only
    rcases hi : main.infer P ⟨Globals.init.labels, P.from_bytes (argv.getD 1 ""),
      P.from_bytes (argv.getD 2 "")⟩ device with ⟨t3, r3⟩
    cases r3 with
    | error e => exact ⟨t3, by simp⟩
    | ok resultVector =>
      simp only
      split
      · exact ⟨t3 ++ List.map Event.printf (PrintResults P.gt P.sort P.fmtF P.labelsFile
          Globals.init.labels resultVector).out, by simp⟩
      · exact ⟨t3 ++ List.map Event.printf (PrintResults P.gt P.sort P.fmtF P.labelsFile
          Globals.init.labels resultVector).out, by simp⟩

theorem device_ok (P : Platform α δ σ) (fuel : Nat) (cin cin1 : IStream)
    (t : List (Event α δ)) (d : δ) (hne : P.validAdapters ≠ [])
    (h : main.device P fuel cin = (t, cin1, .ok d)) :
    ∃ (tsel : List (Event α δ)) (k : Int) (a : α),
      main.select P.validAdapters.length fuel cin = (tsel, cin1, .ok k) ∧
      P.validAdapters[toSizeT k]? = some a ∧ d = P.GetLearningModelDeviceFromAdapter a ∧
      t = Event.printf promptLine ::
        (tsel ++ [Event.printf (selectedLine k), Event.GetLearningModelDeviceFromAdapter a]) := by
  unfold main.device at h
  have hlen : ¬ (P.validAdapters.length = 0) := by
    intro h0; exact hne (List.length_eq_zero.1 h0)
  rw [if_neg hlen] at h
  rcases hs : main.select (α := α) (δ := δ) P.validAdapters.length fuel cin with ⟨tsel, cin2, r⟩
  rw [hs] at h
  cases r with
  | error e => simp at h
  | ok k =>
    simp only at h
    cases ha : P.validAdapters[toSizeT k]? with
    | none => rw [ha] at h; simp at h
    | some a =>
      rw [ha] at h
      simp only [Prod.mk.injEq, Except.ok.injEq] at h
      obtain ⟨ht, hc, hd⟩ := h
      subst hc
      refine ⟨tsel, k, a, rfl, ha, hd.symm, ?_⟩
      rw [← ht]
      simp [promptLine, selectedLine]

theorem device_spec (P : Platform α δ σ) (fuel : Nat) (cin cin1 : IStream)
    (t : List (Event α δ)) (d : δ) (hne : P.validAdapters ≠ [])
    (h : main.device P fuel cin = (t, cin1, .ok d)) :
    ∃ (k : Nat) (a : α) (earlier : List (Option Int)),
      k < P.validAdapters.length ∧ P.validAdapters[k]? = some a ∧
      d = P.GetLearningModelDeviceFromAdapter a ∧
      reads t = earlier ++ [some (k : Int)] ∧
      (∀ r ∈ earlier, Rejected P.validAdapters.length r) ∧
      printed t =
        promptLine :: (List.replicate earlier.length invalidIndexLine ++ [selectedLine k]) ∧
      t.getLast? = some (Event.GetLearningModelDeviceFromAdapter a) := by
  obtain ⟨tsel, k, a, hs, ha, hd, ht⟩ := device_ok P fuel cin cin1 t d hne h
  obtain ⟨h0, h1, h2, earlier, hr, hrej, hp⟩ := select_ok _ _ _ _ _ _ hs
  have hk : (toSizeT k : Int) = k := toSizeT_of_int_range k h0 h2
  refine ⟨toSizeT k, a, earlier, by omega, ha, hd, ?_, hrej, ?_, ?_⟩
  · rw [ht, hk]
    simp [reads, reads_append, hr]
  · rw [ht, hk]
    simp [printed, printed_append, hp]
  · have hsplit : t = (Event.printf promptLine :: (tsel ++ [Event.printf (selectedLine k)])) ++
        [Event.GetLearningModelDeviceFromAdapter a] := by
      rw [ht]; simp
    rw [hsplit, List.getLast?_concat]

/-! ## The claims about device selection and the command line -/

/-- C1: with a non-empty adapter list, whenever the selection part of `main`
yields a device, the last read attempt gave an integer `k` with `0 ≤ k < N`,
every earlier attempt was rejected (failed extraction or integer outside
`[0, N)`) and was answered by one re-prompt, and the device is the one made from
`validAdapters[k]`, created after all reads.  With two adapters and the input
`1`, the device of adapter 1 is returned after one read and no re-prompt. -/
theorem C1_selection_loop (P : Platform α δ σ) (fuel : Nat) (cin cin1 : IStream)
    (t : List (Event α δ)) (d : δ) (hne : P.validAdapters ≠ [])
    (h : main.device P fuel cin = (t, cin1, .ok d)) :
    (∃ (k : Nat) (a : α) (earlier : List (Option Int)),
      k < P.validAdapters.length ∧ P.validAdapters[k]? = some a ∧
      d = P.GetLearningModelDeviceFromAdapter a ∧
      reads t = earlier ++ [some (k : Int)] ∧
      (∀ r ∈ earlier, Rejected P.validAdapters.length r) ∧
      printed t =
        promptLine :: (List.replicate earlier.length invalidIndexLine ++ [selectedLine k]) ∧
      t.getLast? = some (Event.GetLearningModelDeviceFromAdapter a)) ∧
    (∀ (a0 a1 : α) (n : Nat),
      main.device { P with validAdapters := [a0, a1] } (n + 1) (IStream.ofChars ['1']) =
        ([Event.printf promptLine, Event.cinExtract (some 1), Event.printf (selectedLine 1),
            Event.GetLearningModelDeviceFromAdapter a1],
          ⟨[], true, false⟩, .ok (P.GetLearningModelDeviceFromAdapter a1))) := by
  constructor
  · exact device_spec P fuel cin cin1 t d hne h
  · intro a0 a1 n
    rfl

/-- Witness of C1: two adapters and the input `1`. -/
theorem C1_selection_loop_witness :
    samplePlatform.validAdapters ≠ [] ∧
    main.device samplePlatform 1 (IStream.ofChars ['1']) =
      ([Event.printf promptLine, Event.cinExtract (some 1), Event.printf (selectedLine 1),
          Event.GetLearningModelDeviceFromAdapter "gpu1"],
        ⟨[], true, false⟩, .ok "device of gpu1") ∧
    ∃ (k : Nat) (a : String) (earlier : List (Option Int)),
      k < samplePlatform.validAdapters.length ∧ samplePlatform.validAdapters[k]? = some a ∧
      "device of gpu1" = samplePlatform.GetLearningModelDeviceFromAdapter a ∧
      reads [Event.printf promptLine, Event.cinExtract (some 1), Event.printf (selectedLine 1),
          (Event.GetLearningModelDeviceFromAdapter "gpu1" : Event String String)] =
        earlier ++ [some (k : Int)] ∧
      (∀ r ∈ earlier, Rejected samplePlatform.validAdapters.length r) ∧
      printed [Event.printf promptLine, Event.cinExtract (some 1), Event.printf (selectedLine 1),
          (Event.GetLearningModelDeviceFromAdapter "gpu1" : Event String String)] =
        promptLine :: (List.replicate earlier.length invalidIndexLine ++ [selectedLine k]) ∧
      [Event.printf promptLine, Event.cinExtract (some 1), Event.printf (selectedLine 1),
          (Event.GetLearningModelDeviceFromAdapter "gpu1" : Event String String)].getLast? =
        some (Event.GetLearningModelDeviceFromAdapter a) :=
  ⟨by decide, rfl,
    (C1_selection_loop samplePlatform 1 (IStream.ofChars ['1']) ⟨[], true, false⟩ _ _
      (by decide) rfl).1⟩

/-- C2: with an empty adapter list the selection part of `main` returns the CPU
device, and `main` leaves the input stream as it was and makes no read attempt,
whatever the stream, the command line and the fuel. -/
theorem C2_empty_adapters_cpu (P : Platform α δ σ) (fuel : Nat) (argv : List String)
    (cin : IStream) (h : P.validAdapters = []) :
    main.device P fuel cin = ([Event.printf cpuLine, Event.CpuDevice], cin, .ok P.cpuDevice) ∧
    (main P fuel argv cin).cin = cin ∧
    reads (main P fuel argv cin).trace = [] := by
  have hdev : main.device P fuel cin =
      ([Event.printf cpuLine, Event.CpuDevice], cin, .ok P.cpuDevice) := by
    unfold main.device
    rw [h]
    rfl
  refine ⟨hdev, ?_, ?_⟩
  · unfold main
    split
    · rfl
    · rw [hdev]
      simp only
      split
      · rfl
      · split <;> rfl
  · unfold main
    split
    · rfl
    · rw [hdev, h]
      simp only
      rename_i g _
      have hinf := reads_infer P g P.cpuDevice
      split
      · rename_i heq
        rw [heq] at hinf
        simp [reads_append, reads, main.display, hinf]
      · rename_i heq
        rw [heq] at hinf
        split <;> simp [reads_append, reads, main.display, hinf, reads_map_printf]

/-- Witness of C2: the sample platform without its adapters. -/
theorem C2_empty_adapters_cpu_witness :
    ({ samplePlatform with validAdapters := [] } : Platform String String Int).validAdapters = [] ∧
    main.device { samplePlatform with validAdapters := [] } 0 (IStream.ofChars ['7', '\n']) =
      ([Event.printf cpuLine, Event.CpuDevice], IStream.ofChars ['7', '\n'], .ok "cpu") ∧
    (main { samplePlatform with validAdapters := [] } 0 ["app", "m.onnx", "i.png"]
      (IStream.ofChars ['7', '\n'])).cin = IStream.ofChars ['7', '\n'] ∧
    reads (main { samplePlatform with validAdapters := [] } 0 ["app", "m.onnx", "i.png"]
      (IStream.ofChars ['7', '\n'])).trace = [] :=
  ⟨rfl, C2_empty_adapters_cpu { samplePlatform with validAdapters := [] } 0
    ["app", "m.onnx", "i.png"] (IStream.ofChars ['7', '\n']) rfl⟩

/-- C5: `ParseArgs` returns `false` exactly when `argc < 3`; then `main` only
initialises the apartment, prints the usage message and returns `-1`, with the
input untouched and the globals unchanged; with `argc ≥ 3` it returns `true`
with `modelPath` made from `argv[1]` and `imagePath` from `argv[2]`. -/
theorem C5_ParseArgs_usage (P : Platform α δ σ) (fuel : Nat) (argv : List String)
    (cin : IStream) (argc : Int) (g : Globals) :
    ((ParseArgs P.from_bytes argc argv g).1 = false ↔ argc < 3) ∧
    (argv.length < 3 →
      main P fuel argv cin =
        ⟨[Event.init_apartment, Event.printf (usageLine argv)], cin, Globals.init, .ok (-1)⟩) ∧
    (∀ a1 a2 : String, 3 ≤ argc → argv[1]? = some a1 → argv[2]? = some a2 →
      ParseArgs P.from_bytes argc argv g =
        (true, ⟨g.labels, P.from_bytes a1, P.from_bytes a2⟩)) := by
  refine ⟨?_, ?_, ?_⟩
  · unfold ParseArgs
    by_cases h : argc < 3 <;> simp [h]
  · intro h
    unfold main
    have h3 : ((argv.length : Int) < 3) := by omega
    simp [ParseArgs, h3, usageLine]
  · intro a1 a2 h3 h1 h2
    unfold ParseArgs
    have : ¬ argc < 3 := by omega
    simp [this, List.getD_eq_getElem?_getD, h1, h2]

/-- Witness of C5: a command line with one argument, and one with two. -/
theorem C5_ParseArgs_usage_witness :
    ((ParseArgs samplePlatform.from_bytes 2 ["app", "m.onnx"] Globals.init).1 = false ↔
      (2 : Int) < 3) ∧
    main samplePlatform 0 ["app", "m.onnx"] (IStream.ofChars ['1']) =
      ⟨[Event.init_apartment, Event.printf "Usage: app [modelfile] [imagefile]"],
        IStream.ofChars ['1'], Globals.init, .ok (-1)⟩ ∧
    ParseArgs samplePlatform.from_bytes 3 ["app", "m.onnx", "i.png"] Globals.init =
      (true, ⟨[], "m.onnx", "i.png"⟩) :=
  ⟨(C5_ParseArgs_usage samplePlatform 0 ["app", "m.onnx"] (IStream.ofChars ['1']) 2
      Globals.init).1,
    (C5_ParseArgs_usage samplePlatform 0 ["app", "m.onnx"] (IStream.ofChars ['1']) 2
      Globals.init).2.1 (by decide),
    (C5_ParseArgs_usage samplePlatform 0 ["app", "m.onnx", "i.png"] (IStream.ofChars ['1']) 3
      Globals.init).2.2 "m.onnx" "i.png" (by decide) rfl rfl⟩

/-- C7: `main` prints one description line per adapter, the line of index `i`
describing `validAdapters[i]`, for `i = 0, ..., N - 1` in this order, right
after the enumeration and before the selection; and when the selection accepts
the index `k`, the device is made from that same `validAdapters[k]`, the adapter
the line of index `k` describes. -/
theorem C7_display_selection_same_indices (P : Platform α δ σ) (fuel : Nat)
    (argv : List String) (cin : IStream) (hargs : 3 ≤ argv.length) :
    printed (main.display P 0 P.validAdapters) =
      List.ofFn (fun i : Fin P.validAdapters.length =>
        descriptionLine P i.val (P.validAdapters.get i)) ∧
    (∃ rest, (main P fuel argv cin).trace =
      Event.init_apartment :: Event.EnumerateAdapters true ::
        (main.display P 0 P.validAdapters ++ (main.device P fuel cin).1 ++ rest)) ∧
    (∀ (t : List (Event α δ)) (cin1 : IStream) (d : δ), P.validAdapters ≠ [] →
      main.device P fuel cin = (t, cin1, .ok d) →
      ∃ k : Fin P.validAdapters.length,
        (reads t).getLast? = some (some (k.val : Int)) ∧
        d = P.GetLearningModelDeviceFromAdapter (P.validAdapters.get k) ∧
        (printed (main.display P 0 P.validAdapters))[k.val]? =
          some (descriptionLine P k.val (P.validAdapters.get k))) := by
  have hdisp := printed_display P P.validAdapters 0
  simp only [Nat.zero_add] at hdisp
  refine ⟨hdisp, main_trace_starts P fuel argv cin hargs, ?_⟩
  intro t cin1 d hne h
  obtain ⟨k, a, earlier, hk, ha, hd, hr, -, -, -⟩ := device_spec P fuel cin cin1 t d hne h
  refine ⟨⟨k, hk⟩, ?_, ?_, ?_⟩
  · rw [hr, List.getLast?_concat]
  · rw [hd]
    congr 1
    rw [List.getElem?_eq_getElem hk] at ha
    simpa using ha.symm
  · rw [hdisp]
    simp [List.getElem?_eq_getElem, hk]

/-- Witness of C7: the sample platform with the input `1`. -/
theorem C7_display_selection_same_indices_witness :
    3 ≤ ["app", "m.onnx", "i.png"].length ∧
    printed (main.display samplePlatform 0 samplePlatform.validAdapters) =
      ["Index: 0, Description: gpu0\n", "Index: 1, Description: gpu1\n"] ∧
    printed (main.display samplePlatform 0 samplePlatform.validAdapters) =
      List.ofFn (fun i : Fin samplePlatform.validAdapters.length =>
        descriptionLine samplePlatform i.val (samplePlatform.validAdapters.get i)) :=
  ⟨by decide, by decide,
    (C7_display_selection_same_indices samplePlatform 1 ["app", "m.onnx", "i.png"]
      (IStream.ofChars ['1']) (by decide)).1⟩

/-! ## Decimal notation and the parsing functions -/

theorem digitChar_val : ∀ k : Fin 10, (Nat.digitChar k.val).toNat - 48 = k.val := by decide

theorem digitChar_isDigit : ∀ k : Fin 10, (Nat.digitChar k.val).isDigit = true := by decide

theorem digitsValue_concat (pre : List Char) (d : Char) :
    digitsValue (pre ++ [d]) = 10 * digitsValue pre + (d.toNat - 48) := by
  simp [digitsValue, List.foldl_append]

theorem toDigitsCore_spec : ∀ (fuel n : Nat) (ds : List Char), n < fuel →
    ∃ pre, Nat.toDigitsCore 10 fuel n ds = pre ++ ds ∧ pre ≠ [] ∧
      (∀ c ∈ pre, c.isDigit = true) ∧ digitsValue pre = n := by
  intro fuel
  induction fuel with
  | zero => intro n ds h; omega
  | succ fuel ih =>
    intro n ds h
    have hlt : n % 10 < 10 := Nat.mod_lt _ (by decide)
    have hval := digitChar_val ⟨n % 10, hlt⟩
    have hdig := digitChar_isDigit ⟨n % 10, hlt⟩
    simp only at hval hdig
    rw [Nat.toDigitsCore]
    by_cases h0 : n / 10 = 0
    · simp only [h0, if_true]
      refine ⟨[Nat.digitChar (n % 10)], rfl, by simp, ?_, ?_⟩
      · intro c hc
        rw [List.mem_singleton.1 hc]; exact hdig
      · have : digitsValue [Nat.digitChar (n % 10)] = (Nat.digitChar (n % 10)).toNat - 48 := by
          simp [digitsValue]
        rw [this, hval]
        omega
    · simp only [h0, if_false]
      have hlt2 : n / 10 < fuel := by omega
      obtain ⟨pre, he, hne, hd, hv⟩ := ih (n / 10) (Nat.digitChar (n % 10) :: ds) hlt2
      refine ⟨pre ++ [Nat.digitChar (n % 10)], ?_, by simp, ?_, ?_⟩
      · rw [he]; simp
      · intro c hc
        rcases List.mem_append.1 hc with h1 | h1
        · exact hd c h1
        · rw [List.mem_singleton.1 h1]; exact hdig
      · rw [digitsValue_concat, hv, hval]
        omega

theorem decimal_spec (i : Nat) :
    decimal i ≠ [] ∧ (∀ c ∈ decimal i, c.isDigit = true) ∧ digitsValue (decimal i) = i := by
  obtain ⟨pre, he, hne, hd, hv⟩ := toDigitsCore_spec (i + 1) i [] (Nat.lt_succ_self i)
  have : decimal i = pre := by
    unfold decimal Nat.toDigits
    rw [he]; simp
  rw [this]
  exact ⟨hne, hd, hv⟩

theorem isDigit_not_special (c : Char) (h : c.isDigit = true) :
    isspace c = false ∧ (c == '-') = false ∧ (c == '+') = false ∧ (c != ',') = true := by
  have h1 : 48 ≤ c.val.toNat ∧ c.val.toNat ≤ 57 := by
    simp only [Char.isDigit, Bool.and_eq_true, decide_eq_true_eq] at h
    constructor
    · have := h.1; exact this
    · have := h.2; exact this
  have hne : ∀ d : Char, (d.val.toNat < 48 ∨ 57 < d.val.toNat) → c ≠ d := by
    intro d hd hcd
    rw [hcd] at h1
    omega
  refine ⟨?_, ?_, ?_, ?_⟩
  · simp only [isspace, Bool.or_eq_false_iff, beq_eq_false_iff_ne, ne_eq]
    refine ⟨⟨⟨⟨⟨?_, ?_⟩, ?_⟩, ?_⟩, ?_⟩, ?_⟩ <;> exact hne _ (by decide)
  · exact beq_eq_false_iff_ne.2 (hne _ (by decide))
  · exact beq_eq_false_iff_ne.2 (hne _ (by decide))
  · simp only [bne_iff_ne, ne_eq]
    exact hne _ (by decide)

theorem takeWhile_until (p : Char → Bool) (l r : List Char) (c : Char)
    (hl : ∀ x ∈ l, p x = true) (hc : p c = false) :
    (l ++ c :: r).takeWhile p = l ∧ (l ++ c :: r).dropWhile p = c :: r := by
  constructor
  · rw [List.takeWhile_append_of_pos hl, List.takeWhile_cons_of_neg (by simp [hc])]
    simp
  · rw [List.dropWhile_append_of_pos hl, List.dropWhile_cons_of_neg (by simp [hc])]

theorem getline_until (l r s : List Char) (delim : Char) (hl : ∀ x ∈ l, x ≠ delim) :
    getline ⟨l ++ delim :: r, false, false⟩ s delim = (⟨r, false, false⟩, l, true) := by
  have h := takeWhile_until (fun c => c != delim) l r delim
    (fun x hx => by simpa using hl x hx) (by simp)
  unfold getline
  simp only [IStream.good, Bool.not_false, Bool.and_self, if_true]
  rw [h.2, h.1]

theorem atoi_decimal (i : Nat) (h : (i : Int) ≤ INT_MAX) : atoi (decimal i) = i := by
  obtain ⟨hne, hd, hv⟩ := decimal_spec i
  obtain ⟨c, rest, hcr⟩ := List.exists_cons_of_ne_nil hne
  have hc := isDigit_not_special c (hd c (by rw [hcr]; simp))
  unfold atoi
  have hdrop : (decimal i).dropWhile isspace = c :: rest := by
    rw [hcr, List.dropWhile_cons_of_neg (by simp [hc.1])]
  rw [hdrop]
  simp only [hc.2.1, hc.2.2.1, Bool.or_self, Bool.false_eq_true, if_false]
  rw [← hcr, List.takeWhile_eq_self_iff.2 hd, hv]
  unfold INT_MAX at h
  unfold INT_MAX INT_MIN
  have h1 : ¬ ((i : Int) > 2147483647) := by omega
  have h2 : ¬ ((i : Int) < -2147483648) := by omega
  simp [h1, h2]

theorem toSizeT_natCast (i : Nat) (h : (i : Int) ≤ INT_MAX) : toSizeT (i : Int) = i := by
  have := toSizeT_of_int_range (i : Int) (Int.natCast_nonneg i) h
  exact_mod_cast this

theorem wrapInt_succ (i : Nat) (h : (i : Int) + 1 ≤ INT_MAX) :
    wrapInt ((i : Int) + 1) = ((i + 1 : Nat) : Int) := by
  unfold INT_MAX at h
  unfold wrapInt
  push_cast
  omega

/-! ## `LoadLabels` on a file of records -/

theorem resize_grow (labels : List String) (i : Nat) (h : (i : Int) + 1 ≤ INT_MAX)
    (hlen : labels.length ≤ i) :
    resize labels (i + 1) = .ok (labels ++ List.replicate (i + 1 - labels.length) "") := by
  unfold resize
  have h1 : ¬ (i + 1 > max_size) := by
    unfold INT_MAX at h
    unfold max_size
    omega
  rw [if_neg h1, List.take_of_length_le (by omega)]

theorem loop_step (fuel : Nat) (r : Nat × String) (rest s : List Char) (labels : List String)
    (hr : RecordOk r) :
    LoadLabels.loop (fuel + 1) ⟨record r ++ rest, false, false⟩ s labels =
      LoadLabels.loop fuel ⟨rest, false, false⟩ r.2.data (store labels r) := by
  obtain ⟨hi, ht⟩ := hr
  have himax : (r.1 : Int) ≤ INT_MAX := by omega
  obtain ⟨-, hd, -⟩ := decimal_spec r.1
  have hfile : record r ++ rest = decimal r.1 ++ ',' :: (r.2.data ++ '\n' :: rest) := by
    simp [record]
  have hg1 := getline_until (decimal r.1) (r.2.data ++ '\n' :: rest) s ','
    (fun x hx => by
      have := (isDigit_not_special x (hd x hx)).2.2.2
      simpa using this)
  have hg2 := getline_until r.2.data rest (decimal r.1) '\n'
    (fun x hx hxe => ht (hxe ▸ hx))
  rw [LoadLabels.loop, hfile, hg1]
  simp only
  rw [atoi_decimal r.1 himax, toSizeT_natCast r.1 himax, wrapInt_succ r.1 hi,
    toSizeT_natCast (r.1 + 1) (by push_cast; exact hi)]
  by_cases hlen : r.1 ≥ labels.length
  · rw [if_pos hlen, resize_grow labels r.1 hi hlen]
    simp only
    rw [hg2]
    simp only
    have hlt : r.1 < (labels ++ List.replicate (r.1 + 1 - labels.length) "").length := by
      simp; omega
    rw [if_pos hlt]
    rfl
  · rw [if_neg hlen]
    simp only
    rw [hg2]
    simp only
    rw [if_pos (by omega)]
    have h0 : r.1 + 1 - labels.length = 0 := by omega
    simp [store, h0]

theorem loop_records : ∀ (records : List (Nat × String)) (fuel : Nat) (s : List Char)
    (labels : List String), records.length < fuel → (∀ r ∈ records, RecordOk r) →
    LoadLabels.loop fuel ⟨labelsFileOf records, false, false⟩ s labels =
      .ok (storeAll labels records) := by
  intro records
  induction records with
  | nil =>
    intro fuel s labels hf _
    obtain ⟨f, rfl⟩ : ∃ f, fuel = f + 1 := ⟨fuel - 1, by simp at hf; omega⟩
    simp [LoadLabels.loop, getline, IStream.good, labelsFileOf, storeAll]
  | cons r rs ih =>
    intro fuel s labels hf hok
    obtain ⟨f, rfl⟩ : ∃ f, fuel = f + 1 := ⟨fuel - 1, by simp at hf; omega⟩
    rw [labelsFileOf, loop_step f r _ s labels (hok r (by simp))]
    rw [ih f _ _ (by simpa using hf) (fun r hr => hok r (List.mem_cons_of_mem _ hr))]
    rfl

theorem record_length_pos (r : Nat × String) : 0 < (record r).length := by
  simp [record]

theorem labelsFileOf_length (records : List (Nat × String)) :
    records.length ≤ (labelsFileOf records).length := by
  induction records with
  | nil => simp [labelsFileOf]
  | cons r rs ih =>
    have := record_length_pos r
    simp only [labelsFileOf, List.length_cons, List.length_append]
    omega

theorem LoadLabels_records (records : List (Nat × String)) (labels : List String)
    (hok : ∀ r ∈ records, RecordOk r) :
    LoadLabels (some (labelsFileOf records)) labels = ⟨[], .ok (storeAll labels records)⟩ := by
  unfold LoadLabels
  simp only
  rw [IStream.ofChars, loop_records records _ [] labels
    (by have := labelsFileOf_length records; omega) hok]

/-! ## The table built from the records -/

theorem store_length (labels : List String) (r : Nat × String) :
    (store labels r).length = max labels.length (r.1 + 1) := by
  simp only [store, List.length_set, List.length_append, List.length_replicate]
  omega

theorem store_get_self (labels : List String) (r : Nat × String) :
    (store labels r)[r.1]? = some r.2 := by
  unfold store
  rw [List.getElem?_set_self]
  simp only [List.length_append, List.length_replicate]
  omega

theorem store_get_ne (labels : List String) (r : Nat × String) (j : Nat) (h : j ≠ r.1) :
    (store labels r)[j]? =
      if j < labels.length then labels[j]?
      else if j < (store labels r).length then some "" else none := by
  rw [store_length]
  unfold store
  rw [List.getElem?_set_ne (Ne.symm h), List.getElem?_append]
  by_cases h1 : j < labels.length
  · simp [h1]
  · simp only [h1, if_false, List.getElem?_replicate]
    by_cases h2 : j < r.1 + 1
    · have h3 : j - labels.length < r.1 + 1 - labels.length := by omega
      have h4 : j < max labels.length (r.1 + 1) := by omega
      simp [h3, h4]
    · have h3 : ¬ (j - labels.length < r.1 + 1 - labels.length) := by omega
      have h4 : ¬ (j < max labels.length (r.1 + 1)) := by omega
      simp [h3, h4]

theorem storeAll_length_ge : ∀ (records : List (Nat × String)) (labels : List String),
    labels.length ≤ (storeAll labels records).length := by
  intro records
  induction records with
  | nil => intro labels; simp [storeAll]
  | cons r rs ih =>
    intro labels
    have h1 := ih (store labels r)
    rw [store_length] at h1
    simp only [storeAll, List.foldl_cons] at h1 ⊢
    omega

theorem storeAll_append (labels : List String) (pre post : List (Nat × String)) :
    storeAll labels (pre ++ post) = storeAll (storeAll labels pre) post := by
  simp [storeAll, List.foldl_append]

theorem storeAll_length : ∀ (records : List (Nat × String)) (labels : List String),
    (storeAll labels records).length =
      records.foldl (fun m r => max m (r.1 + 1)) labels.length := by
  intro records
  induction records with
  | nil => intro labels; simp [storeAll]
  | cons r rs ih =>
    intro labels
    have h1 := ih (store labels r)
    rw [store_length] at h1
    simpa [storeAll] using h1

theorem foldl_max_succ : ∀ (records : List (Nat × String)) (m : Nat),
    records.foldl (fun m r => max m (r.1 + 1)) (m + 1) =
      records.foldl (fun m r => max m r.1) m + 1 := by
  intro records
  induction records with
  | nil => intro m; rfl
  | cons r rs ih =>
    intro m
    simp only [List.foldl_cons]
    have : max (m + 1) (r.1 + 1) = max m r.1 + 1 := by omega
    rw [this, ih]

theorem storeAll_nil_length (records : List (Nat × String)) (hne : records ≠ []) :
    (storeAll [] records).length = records.foldl (fun m r => max m r.1) 0 + 1 := by
  obtain ⟨r, rs, rfl⟩ := List.exists_cons_of_ne_nil hne
  rw [storeAll_length]
  simp only [List.length_nil, List.foldl_cons]
  have h1 : max 0 (r.1 + 1) = max 0 r.1 + 1 := by omega
  rw [h1, foldl_max_succ]

theorem storeAll_get_other : ∀ (records : List (Nat × String)) (labels : List String) (j : Nat),
    (∀ r ∈ records, r.1 ≠ j) →
    (storeAll labels records)[j]? =
      if j < labels.length then labels[j]?
      else if j < (storeAll labels records).length then some "" else none := by
  intro records
  induction records with
  | nil =>
    intro labels j _
    by_cases h : j < labels.length
    · simp [storeAll, h]
    · simp [storeAll, h, List.getElem?_eq_none (not_lt.1 h)]
  | cons r rs ih =>
    intro labels j hj
    have hjr : j ≠ r.1 := fun h => hj r (by simp) h.symm
    have h1 := ih (store labels r) j (fun r hr => hj r (List.mem_cons_of_mem _ hr))
    have h2 := store_get_ne labels r j hjr
    have h3 := storeAll_length_ge rs (store labels r)
    have h4 := store_length labels r
    have hunf : storeAll labels (r :: rs) = storeAll (store labels r) rs := rfl
    rw [hunf, h1, h2]
    by_cases ha : j < labels.length
    · have hb : j < (store labels r).length := by omega
      simp [ha, hb]
    · by_cases hb : j < (store labels r).length
      · have hc : j < (storeAll (store labels r) rs).length := by omega
        simp [ha, hb, hc]
      · simp [ha, hb]

theorem storeAll_get_mem : ∀ (records : List (Nat × String)) (labels : List String),
    (records.map Prod.fst).Nodup → ∀ r ∈ records, (storeAll labels records)[r.1]? = some r.2 := by
  intro records
  induction records with
  | nil => intro labels _ r hr; simp at hr
  | cons r0 rs ih =>
    intro labels hnd r hr
    have hunf : storeAll labels (r0 :: rs) = storeAll (store labels r0) rs := rfl
    rw [List.map_cons, List.nodup_cons] at hnd
    rcases List.mem_cons.1 hr with h | h
    · subst h
      have hother : ∀ q ∈ rs, q.1 ≠ r.1 := by
        intro q hq he
        exact hnd.1 (he ▸ List.mem_map_of_mem Prod.fst hq)
      rw [hunf, storeAll_get_other rs (store labels r) r.1 hother]
      have h4 := store_length labels r
      have hlt : r.1 < (store labels r).length := by omega
      rw [if_pos hlt, store_get_self]
    · rw [hunf]
      exact ih (store labels r0) hnd.2 r h

theorem foldl_max_spec : ∀ (records : List (Nat × String)) (m : Nat),
    m ≤ records.foldl (fun m r => max m r.1) m ∧
    (∀ r ∈ records, r.1 ≤ records.foldl (fun m r => max m r.1) m) ∧
    (records.foldl (fun m r => max m r.1) m = m ∨
      ∃ r ∈ records, r.1 = records.foldl (fun m r => max m r.1) m) := by
  intro records
  induction records with
  | nil => intro m; simp
  | cons r rs ih =>
    intro m
    obtain ⟨h1, h2, h3⟩ := ih (max m r.1)
    simp only [List.foldl_cons]
    refine ⟨by omega, ?_, ?_⟩
    · intro q hq
      rcases List.mem_cons.1 hq with h | h
      · subst h; omega
      · exact h2 q h
    · rcases h3 with h | ⟨q, hq, he⟩
      · by_cases hm : r.1 ≤ m
        · left; rw [h]; omega
        · right; exact ⟨r, by simp, by rw [h]; omega⟩
      · right; exact ⟨q, List.mem_cons_of_mem _ hq, he⟩

theorem storeAll_nil_length_highest (records : List (Nat × String)) (hne : records ≠ []) :
    ∃ r ∈ records, (storeAll [] records).length = r.1 + 1 ∧ ∀ q ∈ records, q.1 ≤ r.1 := by
  rw [storeAll_nil_length records hne]
  obtain ⟨-, h2, h3⟩ := foldl_max_spec records 0
  rcases h3 with h | ⟨r, hr, he⟩
  · obtain ⟨r, rs, rfl⟩ := List.exists_cons_of_ne_nil hne
    refine ⟨r, by simp, ?_, ?_⟩
    · have := h2 r (by simp)
      omega
    · intro q hq
      have := h2 q hq
      omega
  · exact ⟨r, hr, by rw [he], fun q hq => by rw [he]; exact h2 q hq⟩

theorem recordOk_of_bounds (records : List (Nat × String))
    (hidx : ∀ r ∈ records, r.1 < 2147483647) (htext : ∀ r ∈ records, '\n' ∉ r.2.data) :
    ∀ r ∈ records, RecordOk r := by
  intro r hr
  have := hidx r hr
  exact ⟨by unfold INT_MAX; omega, htext r hr⟩

/-! ## `LoadLabels` never runs out of fuel -/

theorem getline_buf_le (f : IStream) (s : List Char) (delim : Char) :
    (getline f s delim).1.buf.length ≤ f.buf.length := by
  unfold getline
  split
  · split
    · simp
    · rename_i hd
      have h := (List.dropWhile_sublist (fun c => c != delim) (l := f.buf)).length_le
      rw [hd] at h
      simp only [List.length_cons] at h
      simp only
      omega
  · simp

theorem getline_buf_lt (f : IStream) (s : List Char) (delim : Char)
    (h : (getline f s delim).2.2 = true) :
    (getline f s delim).1.buf.length < f.buf.length := by
  unfold getline at h ⊢
  split
  · split
    · rename_i hg _ hd
      rw [if_pos hg, hd] at h
      simp only [Bool.not_eq_true', List.isEmpty_eq_false] at h
      have hne : f.buf ≠ [] := by
        intro he
        rw [he] at h
        simp at h
      simp only [List.length_nil]
      exact List.length_pos.2 hne
    · rename_i hd
      have hl := (List.dropWhile_sublist (fun c => c != delim) (l := f.buf)).length_le
      rw [hd] at hl
      simp only [List.length_cons] at hl
      simp only
      omega
  · rename_i hg
    rw [if_neg hg] at h
    simp at h

theorem resize_not_outOfFuel (v : List String) (count : Nat) :
    resize v count ≠ .error .outOfFuel := by
  unfold resize
  split <;> simp

theorem LoadLabels_loop_fuel : ∀ (fuel : Nat) (f : IStream) (s : List Char)
    (labels : List String), f.buf.length < fuel →
    LoadLabels.loop fuel f s labels ≠ .error .outOfFuel := by
  intro fuel
  induction fuel with
  | zero => intro f s labels h; omega
  | succ fuel ih =>
    intro f s labels h
    rw [LoadLabels.loop]
    have hlt := getline_buf_lt f s ','
    rcases hg : getline f s ',' with ⟨f1, s1, ok⟩
    rw [hg] at hlt
    cases ok with
    | false => simp
    | true =>
      simp only at hlt ⊢
      have hlt1 := hlt trivial
      split
      · rename_i e he
        intro hcontra
        simp only [Except.error.injEq] at hcontra
        subst hcontra
        split at he
        · exact resize_not_outOfFuel _ _ he
        · cases he
      · have hle := getline_buf_le f1 s1 '\n'
        rcases hg2 : getline f1 s1 '\n' with ⟨f2, s2, ok2⟩
        rw [hg2] at hle
        simp only at hle ⊢
        split
        · exact ih _ _ _ (by omega)
        · simp

theorem LoadLabels_fuel (labelsFile : Option (List Char)) (labels : List String) :
    (LoadLabels labelsFile labels).val ≠ .error .outOfFuel := by
  unfold LoadLabels
  cases labelsFile with
  | none => simp
  | some cs =>
    simp only
    exact LoadLabels_loop_fuel _ _ _ _ (by simp [IStream.ofChars])

/-! ## The claims about `LoadLabels` -/

/-- C3 as stated fails: the single record with index `2147483647` and text `x`
has a non-negative index and no newline, yet `LoadLabels` produces no table,
because `labelValue + 1` leaves the range of `int` and `resize` throws. -/
theorem C3_round_trip_counterexample :
    ([((2147483647 : Nat), "x")].map Prod.fst).Nodup ∧
    '\n' ∉ "x".data ∧
    labelsFileOf [(2147483647, "x")] = "2147483647,x\n".toList ∧
    (LoadLabels (some (labelsFileOf [(2147483647, "x")])) []).val =
      .error (.threw "std::length_error") ∧
    ¬ ∃ table : List String,
      (LoadLabels (some (labelsFileOf [(2147483647, "x")])) []).val = .ok table ∧
      table[2147483647]? = some "x" := by
  have hval : (LoadLabels (some (labelsFileOf [(2147483647, "x")])) []).val =
      .error (.threw "std::length_error") := by decide
  refine ⟨by decide, by decide, by decide, hval, ?_⟩
  rintro ⟨table, h, -⟩
  rw [hval] at h
  cases h

/-- C3, amended: for records with distinct indices below `2147483647` (so that
index plus one fits in an `int`) and texts without newline, written in any order
as lines `<i>,<text>`, `LoadLabels` on an empty table prints nothing and yields
a table with `labels[i] = text_i` for every record and the empty string at every
position below its length that no record names. -/
theorem C3_label_round_trip (records : List (Nat × String))
    (hnodup : (records.map Prod.fst).Nodup)
    (hidx : ∀ r ∈ records, r.1 < 2147483647)
    (htext : ∀ r ∈ records, '\n' ∉ r.2.data) :
    ∃ table : List String,
      LoadLabels (some (labelsFileOf records)) [] = ⟨[], .ok table⟩ ∧
      (∀ r ∈ records, table[r.1]? = some r.2) ∧
      (∀ j, j < table.length → (∀ r ∈ records, r.1 ≠ j) → table[j]? = some "") := by
  refine ⟨storeAll [] records,
    LoadLabels_records records [] (recordOk_of_bounds records hidx htext),
    storeAll_get_mem records [] hnodup, ?_⟩
  intro j hj hother
  rw [storeAll_get_other records [] j hother]
  simp [hj]

/-- Witness of C3: three records out of order, with a gap at index 1. -/
theorem C3_label_round_trip_witness :
    ([((3 : Nat), "owl"), (0, "cat"), (2, "fish, big")].map Prod.fst).Nodup ∧
    (∀ r ∈ [((3 : Nat), "owl"), (0, "cat"), (2, "fish, big")], r.1 < 2147483647) ∧
    (∀ r ∈ [((3 : Nat), "owl"), (0, "cat"), (2, "fish, big")], '\n' ∉ r.2.data) ∧
    labelsFileOf [(3, "owl"), (0, "cat"), (2, "fish, big")] =
      "3,owl\n0,cat\n2,fish, big\n".toList ∧
    (LoadLabels (some "3,owl\n0,cat\n2,fish, big\n".toList) []).val =
      .ok ["cat", "", "fish, big", "owl"] ∧
    ∃ table : List String,
      LoadLabels (some (labelsFileOf [(3, "owl"), (0, "cat"), (2, "fish, big")])) [] =
        ⟨[], .ok table⟩ ∧
      (∀ r ∈ [((3 : Nat), "owl"), (0, "cat"), (2, "fish, big")], table[r.1]? = some r.2) ∧
      (∀ j, j < table.length →
        (∀ r ∈ [((3 : Nat), "owl"), (0, "cat"), (2, "fish, big")], r.1 ≠ j) →
        table[j]? = some "") :=
  ⟨by decide, by decide, by decide, by decide, by decide,
    C3_label_round_trip [(3, "owl"), (0, "cat"), (2, "fish, big")]
      (by decide) (by decide) (by decide)⟩

/-- C8 as stated fails: the file with the records `0,a` and `2147483648,b` is
well formed, but `atoi` cannot return `2147483648`, `labelValue + 1` leaves the
range of `int`, `resize` throws and no table of length `2147483649` exists. -/
theorem C8_table_length_counterexample :
    labelsFileOf [(0, "a"), (2147483648, "b")] = "0,a\n2147483648,b\n".toList ∧
    atoi "2147483648".toList = 2147483647 ∧
    (LoadLabels (some (labelsFileOf [(0, "a"), (2147483648, "b")])) []).val =
      .error (.threw "std::length_error") ∧
    ¬ ∃ table : List String,
      (LoadLabels (some (labelsFileOf [(0, "a"), (2147483648, "b")])) []).val = .ok table ∧
      table.length = 2147483648 + 1 := by
  have hval : (LoadLabels (some (labelsFileOf [(0, "a"), (2147483648, "b")])) []).val =
      .error (.threw "std::length_error") := by decide
  refine ⟨by decide, by decide, hval, ?_⟩
  rintro ⟨table, h, -⟩
  rw [hval] at h
  cases h

/-- C8, amended: for a file of at least one record `<i>,<text>` with indices
below `2147483647` and texts without newline, `LoadLabels` on an empty table
yields a table whose length is the highest index plus one; the files of the
same records in another order give the same length, and the table built from
any leading part of the file is never longer than the final one. -/
theorem C8_table_length (records : List (Nat × String)) (hne : records ≠ [])
    (hidx : ∀ r ∈ records, r.1 < 2147483647)
    (htext : ∀ r ∈ records, '\n' ∉ r.2.data) :
    ∃ table : List String,
      LoadLabels (some (labelsFileOf records)) [] = ⟨[], .ok table⟩ ∧
      (∃ r ∈ records, table.length = r.1 + 1 ∧ ∀ q ∈ records, q.1 ≤ r.1) ∧
      (∀ reordered : List (Nat × String), reordered.Perm records →
        ∃ table2 : List String,
          LoadLabels (some (labelsFileOf reordered)) [] = ⟨[], .ok table2⟩ ∧
          table2.length = table.length) ∧
      (∀ pre post : List (Nat × String), records = pre ++ post →
        ∃ table1 : List String,
          LoadLabels (some (labelsFileOf pre)) [] = ⟨[], .ok table1⟩ ∧
          table1.length ≤ table.length) := by
  have hok := recordOk_of_bounds records hidx htext
  refine ⟨storeAll [] records, LoadLabels_records records [] hok,
    storeAll_nil_length_highest records hne, ?_, ?_⟩
  · intro reordered hperm
    have hok2 : ∀ r ∈ reordered, RecordOk r := fun r hr => hok r (hperm.mem_iff.1 hr)
    have hne2 : reordered ≠ [] := by
      intro h
      rw [h] at hperm
      exact hne (List.Perm.nil_eq hperm).symm
    refine ⟨storeAll [] reordered, LoadLabels_records reordered [] hok2, ?_⟩
    obtain ⟨r, hr, hl, hmax⟩ := storeAll_nil_length_highest records hne
    obtain ⟨r2, hr2, hl2, hmax2⟩ := storeAll_nil_length_highest reordered hne2
    have h1 := hmax r2 (hperm.mem_iff.1 hr2)
    have h2 := hmax2 r (hperm.mem_iff.2 hr)
    omega
  · intro pre post hsplit
    have hok1 : ∀ r ∈ pre, RecordOk r := fun r hr => hok r (by rw [hsplit]; simp [hr])
    refine ⟨storeAll [] pre, LoadLabels_records pre [] hok1, ?_⟩
    rw [hsplit, storeAll_append]
    exact storeAll_length_ge post (storeAll [] pre)

/-- Witness of C8: the highest index comes first and smaller ones follow. -/
theorem C8_table_length_witness :
    [((3 : Nat), "owl"), (0, "cat"), (3, "bat")] ≠ [] ∧
    (∀ r ∈ [((3 : Nat), "owl"), (0, "cat"), (3, "bat")], r.1 < 2147483647) ∧
    (∀ r ∈ [((3 : Nat), "owl"), (0, "cat"), (3, "bat")], '\n' ∉ r.2.data) ∧
    (LoadLabels (some "3,owl\n0,cat\n3,bat\n".toList) []).val = .ok ["cat", "", "", "bat"] ∧
    ∃ table : List String,
      LoadLabels (some (labelsFileOf [(3, "owl"), (0, "cat"), (3, "bat")])) [] =
        ⟨[], .ok table⟩ ∧
      (∃ r ∈ [((3 : Nat), "owl"), (0, "cat"), (3, "bat")],
        table.length = r.1 + 1 ∧ ∀ q ∈ [((3 : Nat), "owl"), (0, "cat"), (3, "bat")], q.1 ≤ r.1) ∧
      (∀ reordered : List (Nat × String),
        reordered.Perm [((3 : Nat), "owl"), (0, "cat"), (3, "bat")] →
        ∃ table2 : List String,
          LoadLabels (some (labelsFileOf reordered)) [] = ⟨[], .ok table2⟩ ∧
          table2.length = table.length) ∧
      (∀ pre post : List (Nat × String),
        [((3 : Nat), "owl"), (0, "cat"), (3, "bat")] = pre ++ post →
        ∃ table1 : List String,
          LoadLabels (some (labelsFileOf pre)) [] = ⟨[], .ok table1⟩ ∧
          table1.length ≤ table.length) :=
  ⟨by decide, by decide, by decide, by decide,
    C8_table_length [(3, "owl"), (0, "cat"), (3, "bat")] (by decide) (by decide) (by decide)⟩

/-! ## Sorting -/

theorem swo_total {β : Type} {comp : β → β → Bool} (h : StrictWeakOrder comp) (a b : β) :
    comp b a = false ∨ comp a b = false := by
  by_cases h1 : comp b a = true
  · right
    by_cases h2 : comp a b = true
    · have := h.trans a b a h2 h1
      rw [h.irrefl a] at this
      exact absurd this (by simp)
    · simpa using h2
  · left; simpa using h1

theorem intGt_swo : StrictWeakOrder intGt := by
  refine ⟨?_, ?_, ?_⟩
  · intro a; simp [intGt]
  · intro a b c; simp only [intGt, decide_eq_true_eq]; omega
  · intro a b c; simp only [intGt, decide_eq_false_iff_not]; omega

/-- In a list without repetition, the members of a two element sublist occur
at increasing positions. -/
theorem pos_lt_of_pair_sublist {β : Type} (x y : β) : ∀ (l : List β), l.Nodup →
    List.Sublist [x, y] l → ∀ a b : Nat, l[a]? = some x → l[b]? = some y → a < b := by
  intro l
  induction l with
  | nil => intro _ hs; simp at hs
  | cons h l ih =>
    intro hnd hs a b ha hb
    rw [List.nodup_cons] at hnd
    cases hs with
    | cons _ hs' =>
      have hx : x ∈ l := hs'.subset (by simp)
      have hy : y ∈ l := hs'.subset (by simp)
      cases a with
      | zero =>
        simp only [List.getElem?_cons_zero, Option.some.injEq] at ha
        exact absurd (ha ▸ hx) hnd.1
      | succ a =>
        cases b with
        | zero =>
          simp only [List.getElem?_cons_zero, Option.some.injEq] at hb
          exact absurd (hb ▸ hy) hnd.1
        | succ b =>
          simp only [List.getElem?_cons_succ] at ha hb
          have := ih hnd.2 hs' a b ha hb
          omega
    | cons₂ _ hs' =>
      have hy : y ∈ l := hs'.subset (by simp)
      cases a with
      | zero =>
        cases b with
        | zero =>
          simp only [List.getElem?_cons_zero, Option.some.injEq] at hb
          exact absurd (hb ▸ hy) hnd.1
        | succ b => omega
      | succ a =>
        simp only [List.getElem?_cons_succ] at ha
        exact absurd (List.getElem?_mem ha) hnd.1

theorem pair_sublist_of_getElem? {β : Type} (x y : β) : ∀ (l : List β) (i j : Nat), i < j →
    l[i]? = some x → l[j]? = some y → List.Sublist [x, y] l := by
  intro l
  induction l with
  | nil => intro i j _ hi; simp at hi
  | cons h l ih =>
    intro i j hij hi hj
    obtain ⟨j', rfl⟩ : ∃ j', j = j' + 1 := ⟨j - 1, by omega⟩
    simp only [List.getElem?_cons_succ] at hj
    cases i with
    | zero =>
      simp only [List.getElem?_cons_zero, Option.some.injEq] at hi
      subst hi
      exact List.Sublist.cons₂ _ (List.singleton_sublist.2 (List.getElem?_mem hj))
    | succ i =>
      simp only [List.getElem?_cons_succ] at hi
      exact List.Sublist.cons _ (ih i j' (by omega) hi hj)

/-! ## The pairs and the display loop of `PrintResults` -/

theorem pairs_getElem? {σ : Type} : ∀ (l : List σ) (s i : Nat),
    (PrintResults.pairs s l)[i]? = (l[i]?).map (fun x => (x, s + i)) := by
  intro l
  induction l with
  | nil => intro s i; simp [PrintResults.pairs]
  | cons x xs ih =>
    intro s i
    cases i with
    | zero => simp [PrintResults.pairs]
    | succ i =>
      simp only [PrintResults.pairs, List.getElem?_cons_succ, ih]
      have : s + 1 + i = s + (i + 1) := by omega
      rw [this]

theorem pairs_length {σ : Type} : ∀ (l : List σ) (s : Nat),
    (PrintResults.pairs s l).length = l.length := by
  intro l
  induction l with
  | nil => intro s; rfl
  | cons x xs ih => intro s; simp [PrintResults.pairs, ih]

theorem mem_pairs {σ : Type} (l : List σ) (p : σ × Nat) (h : p ∈ PrintResults.pairs 0 l) :
    l[p.2]? = some p.1 := by
  obtain ⟨i, hi⟩ := List.mem_iff_getElem?.1 h
  rw [pairs_getElem?] at hi
  cases hl : l[i]? with
  | none => rw [hl] at hi; simp at hi
  | some x =>
    rw [hl] at hi
    simp only [Option.map_some', Nat.zero_add, Option.some.injEq] at hi
    rw [← hi]
    exact hl

theorem pairs_nodup {σ : Type} (l : List σ) : (PrintResults.pairs 0 l).Nodup := by
  rw [List.nodup_iff_getElem?_ne_getElem?]
  intro i j hij hj h
  rw [pairs_getElem?, pairs_getElem?] at h
  rw [pairs_length] at hj
  have hi : i < l.length := by omega
  rw [List.getElem?_eq_getElem hi, List.getElem?_eq_getElem hj] at h
  simp only [Option.map_some', Nat.zero_add, Option.some.injEq, Prod.mk.injEq] at h
  omega

theorem display_ok_iff {σ : Type} (fmtF : σ → String) (labels : List String)
    (sorted : List (σ × Nat)) : ∀ (n i : Nat),
    (PrintResults.display fmtF labels sorted i n).val = .ok () ↔
      ∀ j, j < n → ∃ p, sorted[i + j]? = some p ∧ p.2 < labels.length := by
  intro n
  induction n with
  | zero => intro i; simp [PrintResults.display]
  | succ n ih =>
    intro i
    rw [PrintResults.display]
    cases hs : sorted[i]? with
    | none =>
      simp only
      constructor
      · intro h; cases h
      · intro h
        obtain ⟨p, hp, -⟩ := h 0 (by omega)
        rw [Nat.add_zero, hs] at hp
        cases hp
    | some curr =>
      simp only
      cases hl : labels[curr.2]? with
      | none =>
        simp only
        constructor
        · intro h; cases h
        · intro h
          obtain ⟨p, hp, hlt⟩ := h 0 (by omega)
          rw [Nat.add_zero, hs] at hp
          simp only [Option.some.injEq] at hp
          subst hp
          rw [List.getElem?_eq_getElem hlt] at hl
          cases hl
      | some label =>
        simp only
        rw [ih (i + 1)]
        constructor
        · intro h j hj
          cases j with
          | zero =>
            refine ⟨curr, by simpa using hs, ?_⟩
            by_contra hge
            rw [List.getElem?_eq_none (not_lt.1 hge)] at hl
            cases hl
          | succ j =>
            obtain ⟨p, hp, hlt⟩ := h j (by omega)
            exact ⟨p, by rw [← hp]; congr 1; omega, hlt⟩
        · intro h j hj
          obtain ⟨p, hp, hlt⟩ := h (j + 1) (by omega)
          exact ⟨p, by rw [← hp]; congr 1; omega, hlt⟩

theorem display_three {σ : Type} (fmtF : σ → String) (labels : List String)
    (p0 p1 p2 : σ × Nat) (rest : List (σ × Nat)) (l0 l1 l2 : String)
    (h0 : labels[p0.2]? = some l0) (h1 : labels[p1.2]? = some l1)
    (h2 : labels[p2.2]? = some l2) :
    PrintResults.display fmtF labels (p0 :: p1 :: p2 :: rest) 0 3 =
      ⟨[resultLine fmtF l0 p0.1, resultLine fmtF l1 p1.1, resultLine fmtF l2 p2.1], .ok ()⟩ := by
  simp [PrintResults.display, h0, h1, h2]

theorem display_short {σ : Type} (fmtF : σ → String) (labels : List String)
    (sorted : List (σ × Nat)) (hcover : ∀ p ∈ sorted, p.2 < labels.length) :
    ∀ (n i : Nat), i ≤ sorted.length → sorted.length < i + n →
      (PrintResults.display fmtF labels sorted i n).val = .error (.threw "std::out_of_range") ∧
      (PrintResults.display fmtF labels sorted i n).out.length = sorted.length - i := by
  intro n
  induction n with
  | zero => intro i h1 h2; omega
  | succ n ih =>
    intro i h1 h2
    rw [PrintResults.display]
    cases hs : sorted[i]? with
    | none =>
      have : sorted.length ≤ i := by
        by_contra hlt
        rw [List.getElem?_eq_getElem (by omega)] at hs
        cases hs
      simp only [List.length_nil, true_and]
      omega
    | some curr =>
      have hlt : i < sorted.length := by
        by_contra hge
        rw [List.getElem?_eq_none (by omega)] at hs
        cases hs
      have hc := hcover curr (List.getElem?_mem hs)
      simp only [List.getElem?_eq_getElem hc]
      obtain ⟨hv, hl⟩ := ih (i + 1) (by omega) (by omega)
      refine ⟨hv, ?_⟩
      simp only [List.length_cons, hl]
      omega

theorem PrintResults_eq {σ : Type} (gt : σ → σ → Bool)
    (sort : (σ × Nat → σ × Nat → Bool) → List (σ × Nat) → List (σ × Nat))
    (fmtF : σ → String) (file : Option (List Char)) (labels0 labels : List String)
    (results : List σ) (hload : LoadLabels file labels0 = ⟨[], .ok labels⟩) :
    PrintResults gt sort fmtF file labels0 results =
      ⟨(PrintResults.display fmtF labels
          (sort (fun a b => gt a.1 b.1) (PrintResults.pairs 0 results)) 0 3).out,
        (PrintResults.display fmtF labels
          (sort (fun a b => gt a.1 b.1) (PrintResults.pairs 0 results)) 0 3).val.map
          (fun _ => labels)⟩ := by
  unfold PrintResults
  rw [hload]
  simp

/-- C6: when the labels file cannot be opened, `PrintResults` prints the
missing-file diagnostic and nothing else and ends the process through
`exit(EXIT_FAILURE)`, whatever the scores, the comparison, the sorting
algorithm and the previous table; the diagnostic is not a result line. -/
theorem C6_missing_labels_file {σ : Type} (gt : σ → σ → Bool)
    (sort : (σ × Nat → σ × Nat → Bool) → List (σ × Nat) → List (σ × Nat))
    (fmtF : σ → String) (labels : List String) (results : List σ) :
    PrintResults gt sort fmtF none labels results =
      ⟨[missingLabelsLine], .error (.exited EXIT_FAILURE)⟩ ∧
    EXIT_FAILURE ≠ 0 ∧
    ∀ (label : String) (score : σ), resultLine fmtF label score ≠ missingLabelsLine := by
  refine ⟨rfl, by decide, ?_⟩
  intro label score h
  have hw : 'w' ∈ (resultLine fmtF label score).data := by
    simp [resultLine, String.data_append]
  rw [h] at hw
  revert hw
  decide

/-! ## `std::sort` keeps the number of elements -/

theorem swapAt_length {β : Type} (l : List β) (i j : Nat) : (swapAt l i j).length = l.length := by
  unfold swapAt
  split <;> simp

theorem med3_length {β : Type} (comp : β → β → Bool) (l : List β) (first mid last : Nat) :
    (med3 comp l first mid last).length = l.length := by
  unfold med3
  simp only
  split_ifs <;> simp [swapAt_length]

theorem guessMedian_length {β : Type} (comp : β → β → Bool) (l : List β)
    (first mid last : Nat) : (guessMedian comp l first mid last).length = l.length := by
  unfold guessMedian
  simp only
  split_ifs <;> simp [med3_length]

theorem scanUp_length {β : Type} (comp : β → β → Bool) (last pfirst : Nat) :
    ∀ (fuel : Nat) (s : List β × Nat × Nat),
      (scanUp comp last pfirst fuel s).1.length = s.1.length := by
  intro fuel
  induction fuel with
  | zero => intro s; rfl
  | succ fuel ih =>
    rintro ⟨l, plast, gfirst⟩
    rw [scanUp]
    split_ifs <;> simp [ih, swapAt_length]

theorem scanDown_length {β : Type} (comp : β → β → Bool) (first : Nat) :
    ∀ (fuel : Nat) (s : List β × Nat × Nat),
      (scanDown comp first fuel s).1.length = s.1.length := by
  intro fuel
  induction fuel with
  | zero => intro s; rfl
  | succ fuel ih =>
    rintro ⟨l, pfirst, glast⟩
    rw [scanDown]
    split_ifs <;> simp [ih, swapAt_length]

theorem partitionLoop_length {β : Type} (comp : β → β → Bool) (first last : Nat) :
    ∀ (fuel : Nat) (s : List β × Nat × Nat × Nat × Nat),
      (partitionLoop comp first last fuel s).1.length = s.1.length := by
  intro fuel
  induction fuel with
  | zero => rintro ⟨l, pfirst, plast, gfirst, glast⟩; rfl
  | succ fuel ih =>
    rintro ⟨l, pfirst, plast, gfirst, glast⟩
    rw [partitionLoop]
    have h1 := scanUp_length comp last pfirst (last - gfirst) (l, plast, gfirst)
    rcases hu : scanUp comp last pfirst (last - gfirst) (l, plast, gfirst) with
      ⟨l1, plast1, gfirst1⟩
    rw [hu] at h1
    have h2 := scanDown_length comp first glast (l1, pfirst, glast)
    rcases hd : scanDown comp first glast (l1, pfirst, glast) with ⟨l2, pfirst2, glast2⟩
    rw [hd] at h2
    simp only at h1 h2
    have h3 : l2.length = l.length := h2.trans h1
    simp only [hd]
    split_ifs <;> simp [ih, swapAt_length, h3]

theorem partitionByMedianGuess_length {β : Type} (comp : β → β → Bool) (l : List β)
    (first last : Nat) : (partitionByMedianGuess comp l first last).1.length = l.length := by
  unfold partitionByMedianGuess
  simp only
  rw [partitionLoop_length]
  simp [guessMedian_length]

theorem pushHeapByIndex_length {β : Type} (comp : β → β → Bool) (top : Nat) (val : β) :
    ∀ (fuel : Nat) (l : List β) (hole : Nat),
      (pushHeapByIndex comp top val fuel l hole).length = l.length := by
  intro fuel
  induction fuel with
  | zero => intro l hole; simp [pushHeapByIndex]
  | succ fuel ih =>
    intro l hole
    rw [pushHeapByIndex]
    split
    · split_ifs <;> simp [ih]
    · simp

theorem siftDown_length {β : Type} (comp : β → β → Bool) (maxNonLeaf : Nat) :
    ∀ (fuel : Nat) (s : List β × Nat × Nat),
      (siftDown comp maxNonLeaf fuel s).1.length = s.1.length := by
  intro fuel
  induction fuel with
  | zero => intro s; rfl
  | succ fuel ih =>
    rintro ⟨l, hole, idx⟩
    rw [siftDown]
    split_ifs
    · simp only
      split
      · simp [ih]
      · rfl
    · rfl

theorem popHeapHoleByIndex_length {β : Type} (comp : β → β → Bool) (l : List β)
    (hole bottom : Nat) (val : β) :
    (popHeapHoleByIndex comp l hole bottom val).length = l.length := by
  unfold popHeapHoleByIndex
  simp only
  have h1 := siftDown_length comp ((bottom - 1) / 2) bottom (l, hole, hole)
  rcases hs : siftDown comp ((bottom - 1) / 2) bottom (l, hole, hole) with ⟨l1, hole1, idx1⟩
  rw [hs] at h1
  simp only at h1 ⊢
  split_ifs
  · split
    · simp [pushHeapByIndex_length, h1]
    · exact h1
  · simp [pushHeapByIndex_length, h1]

theorem makeHeapLoop_length {β : Type} (comp : β → β → Bool) (bottom : Nat) :
    ∀ (hole : Nat) (l : List β), (makeHeapLoop comp bottom hole l).length = l.length := by
  intro hole
  induction hole with
  | zero => intro l; rfl
  | succ hole ih =>
    intro l
    rw [makeHeapLoop]
    split
    · simp [ih, popHeapHoleByIndex_length]
    · rfl

theorem sortHeapLoop_length {β : Type} (comp : β → β → Bool) :
    ∀ (last : Nat) (l : List β), (sortHeapLoop comp last l).length = l.length := by
  intro last
  induction last with
  | zero => intro l; rfl
  | succ last ih =>
    intro l
    rw [sortHeapLoop]
    split_ifs
    · split
      · simp [ih, popHeapHoleByIndex_length]
      · rfl
    · rfl

theorem heapSort_length {β : Type} (comp : β → β → Bool) (l : List β) :
    (heapSort comp l).length = l.length := by
  unfold heapSort
  rw [sortHeapLoop_length, makeHeapLoop_length]

theorem onRange_length {β : Type} (f : List β → List β) (hf : ∀ l, (f l).length = l.length)
    (l : List β) (first last : Nat) : (onRange f l first last).length = l.length := by
  unfold onRange
  have h := List.take_append_drop (last - first) (l.drop first)
  have h2 := List.take_append_drop first l
  have h3 : (List.take (last - first) (List.drop first l)).length +
      (List.drop (last - first) (List.drop first l)).length = (List.drop first l).length := by
    rw [← List.length_append, h]
  have h4 : (List.take first l).length + (List.drop first l).length = l.length := by
    rw [← List.length_append, h2]
  simp only [List.length_append, hf]
  omega

theorem insertNext_perm {β : Type} (comp : β → β → Bool) (done : List β) (val : β) :
    (insertNext comp done val).Perm (val :: done) := by
  unfold insertNext
  cases done with
  | nil => exact List.Perm.refl _
  | cons first rest =>
    simp only
    split_ifs
    · exact List.Perm.refl _
    · have hsplit : first :: rest =
          ((first :: rest).reverse.dropWhile (fun e => comp val e)).reverse ++
            ((first :: rest).reverse.takeWhile (fun e => comp val e)).reverse := by
        rw [← List.reverse_append, List.takeWhile_append_dropWhile, List.reverse_reverse]
      refine List.perm_middle.trans ?_
      rw [← hsplit]

theorem insertionSort_concat {β : Type} (comp : β → β → Bool) (l : List β) (v : β) :
    insertionSort comp (l ++ [v]) = insertNext comp (insertionSort comp l) v := by
  simp [insertionSort, List.foldl_append]

theorem insertionSort_perm {β : Type} (comp : β → β → Bool) (l : List β) :
    (insertionSort comp l).Perm l := by
  induction l using List.reverseRecOn with
  | nil => exact List.Perm.refl _
  | append_singleton l v ih =>
    rw [insertionSort_concat]
    refine (insertNext_perm comp _ v).trans ?_
    refine (List.Perm.cons v ih).trans ?_
    exact (List.perm_append_singleton v l).symm

theorem insertionSort_length {β : Type} (comp : β → β → Bool) (l : List β) :
    (insertionSort comp l).length = l.length :=
  (insertionSort_perm comp l).length_eq

theorem sortUnchecked_length {β : Type} (comp : β → β → Bool) :
    ∀ (fuel : Nat) (l : List β) (first last ideal : Nat),
      (sortUnchecked comp fuel l first last ideal).length = l.length := by
  intro fuel
  induction fuel with
  | zero => intro l first last ideal; rfl
  | succ fuel ih =>
    intro l first last ideal
    rw [sortUnchecked]
    split_ifs
    · exact onRange_length _ (insertionSort_length comp) l first last
    · exact onRange_length _ (heapSort_length comp) l first last
    · have h1 := partitionByMedianGuess_length comp l first last
      rcases hp : partitionByMedianGuess comp l first last with ⟨l1, midFirst, midSecond⟩
      rw [hp] at h1
      simp only at h1 ⊢
      split_ifs <;> simp [ih, h1]

theorem stdSort_length {β : Type} (comp : β → β → Bool) (l : List β) :
    (stdSort comp l).length = l.length :=
  sortUnchecked_length comp _ l _ _ _

theorem stdSort_short {β : Type} (comp : β → β → Bool) (l : List β)
    (h : l.length ≤ ISORT_MAX) : stdSort comp l = insertionSort comp l := by
  unfold stdSort
  rw [sortUnchecked]
  rw [if_pos (by simpa using h)]
  simp [onRange]

/-! ## The insertion sort keeps elements that compare alike in their order -/

theorem insertNext_split {β : Type} (comp : β → β → Bool) (first : β) (rest : List β)
    (val : β) (hnf : comp val first = false) :
    ∃ A B, first :: rest = A ++ B ∧ insertNext comp (first :: rest) val = A ++ val :: B ∧
      (∀ e ∈ B, comp val e = true) ∧ ∃ tail, A = first :: tail := by
  refine ⟨((first :: rest).reverse.dropWhile (fun e => comp val e)).reverse,
    ((first :: rest).reverse.takeWhile (fun e => comp val e)).reverse, ?_, ?_, ?_, ?_⟩
  · rw [← List.reverse_append, List.takeWhile_append_dropWhile, List.reverse_reverse]
  · simp [insertNext, hnf]
  · intro e he
    rw [List.mem_reverse] at he
    exact List.mem_takeWhile_imp he
  · have hsplit : first :: rest =
        ((first :: rest).reverse.dropWhile (fun e => comp val e)).reverse ++
          ((first :: rest).reverse.takeWhile (fun e => comp val e)).reverse := by
      rw [← List.reverse_append, List.takeWhile_append_dropWhile, List.reverse_reverse]
    cases hA : ((first :: rest).reverse.dropWhile (fun e => comp val e)).reverse with
    | nil =>
      exfalso
      have hnil : (first :: rest).reverse.dropWhile (fun e => comp val e) = [] := by
        simpa using hA
      have hall := List.dropWhile_eq_nil_iff.1 hnil first (by simp)
      simp only at hall
      rw [hnf] at hall
      exact absurd hall (by simp)
    | cons a tail =>
      rw [hA] at hsplit
      simp only [List.cons_append, List.cons.injEq] at hsplit
      exact ⟨tail, by rw [hsplit.1]⟩

theorem pair_sublist_concat {β : Type} (x y v : β) : ∀ l : List β,
    List.Sublist [x, y] (l ++ [v]) → List.Sublist [x, y] l ∨ (x ∈ l ∧ y = v) := by
  intro l
  induction l with
  | nil =>
    intro h
    have := h.length_le
    simp at this
  | cons a l ih =>
    intro h
    rw [List.cons_append] at h
    cases h with
    | cons _ h' =>
      rcases ih h' with h1 | ⟨h1, h2⟩
      · exact Or.inl (List.Sublist.cons _ h1)
      · exact Or.inr ⟨List.mem_cons_of_mem _ h1, h2⟩
    | cons₂ _ h' =>
      have hy : y ∈ l ++ [v] := h'.subset (by simp)
      rcases List.mem_append.1 hy with h1 | h1
      · exact Or.inl (List.Sublist.cons₂ _ (List.singleton_sublist.2 h1))
      · exact Or.inr ⟨by simp, by simpa using h1⟩

theorem insertionSort_inv {β : Type} (comp : β → β → Bool) (hirr : ∀ a, comp a a = false)
    (htr : ∀ a b c, comp a b = true → comp b c = true → comp a c = true) : ∀ l : List β,
    (∀ first rest, insertionSort comp l = first :: rest →
      ∀ e ∈ insertionSort comp l, comp e first = false) ∧
    (∀ x y, (∀ z, comp x z = comp y z ∧ comp z x = comp z y) → List.Sublist [x, y] l →
      List.Sublist [x, y] (insertionSort comp l)) := by
  intro l
  induction l using List.reverseRecOn with
  | nil =>
    refine ⟨?_, ?_⟩
    · intro first rest h; simp [insertionSort] at h
    · intro x y _ h
      have := h.length_le
      simp at this
  | append_singleton l v ih =>
    obtain ⟨ihHead, ihStable⟩ := ih
    have hperm := insertionSort_perm comp l
    rw [insertionSort_concat]
    cases hacc : insertionSort comp l with
    | nil =>
      rw [hacc] at hperm
      have hl : l = [] := hperm.symm.eq_nil
      subst hl
      refine ⟨?_, ?_⟩
      · intro first rest h e he
        simp only [insertNext, List.cons.injEq] at h
        simp only [insertNext, List.mem_singleton] at he
        rw [he, ← h.1]
        exact hirr v
      · intro x y _ h
        have := h.length_le
        simp at this
    | cons first rest =>
      rw [hacc] at ihHead ihStable hperm
      have hhead := ihHead first rest rfl
      by_cases hfront : comp v first = true
      · have hins : insertNext comp (first :: rest) v = v :: first :: rest := by
          simp [insertNext, hfront]
        rw [hins]
        refine ⟨?_, ?_⟩
        · intro f r h e he
          simp only [List.cons.injEq] at h
          rw [← h.1]
          rcases List.mem_cons.1 he with h1 | h1
          · rw [h1]; exact hirr v
          · by_contra hc
            have hc' : comp e v = true := by simpa using hc
            have := htr e v first hc' hfront
            rw [hhead e h1] at this
            exact absurd this (by simp)
        · intro x y hsame hsub
          rcases pair_sublist_concat x y v l hsub with h1 | ⟨h1, h2⟩
          · exact List.Sublist.cons _ (ihStable x y hsame h1)
          · exfalso
            subst h2
            have hx : x ∈ first :: rest := hperm.mem_iff.2 h1
            have h3 := hhead x hx
            rw [(hsame first).1, hfront] at h3
            exact absurd h3 (by simp)
      · have hnf : comp v first = false := by simpa using hfront
        obtain ⟨A, B, hsplit, hins, hB, tail, hA⟩ := insertNext_split comp first rest v hnf
        rw [hins]
        refine ⟨?_, ?_⟩
        · intro f r h e he
          rw [hA] at h
          simp only [List.cons_append, List.cons.injEq] at h
          rw [← h.1]
          rcases List.mem_append.1 he with h1 | h1
          · exact hhead e (by rw [hsplit]; exact List.mem_append_left _ h1)
          · rcases List.mem_cons.1 h1 with h2 | h2
            · rw [h2]; exact hnf
            · exact hhead e (by rw [hsplit]; exact List.mem_append_right _ h2)
        · intro x y hsame hsub
          rcases pair_sublist_concat x y v l hsub with h1 | ⟨h1, h2⟩
          · have h4 := ihStable x y hsame h1
            rw [hsplit] at h4
            exact h4.trans (List.Sublist.append (List.Sublist.refl A) (List.sublist_cons_self v B))
          · subst h2
            have hx : x ∈ A ++ B := by
              rw [← hsplit]; exact hperm.mem_iff.2 h1
            rcases List.mem_append.1 hx with h3 | h3
            · have h5 : List.Sublist ([x] ++ [y]) (A ++ y :: B) :=
                List.Sublist.append (List.singleton_sublist.2 h3)
                  (List.singleton_sublist.2 (by simp))
              simpa using h5
            · exfalso
              have h6 := hB x h3
              rw [← (hsame x).1, hirr x] at h6
              exact absurd h6 (by simp)

/-! ## The insertion sort meets the contract of `std::sort` -/

/-- C9 as stated fails: in the vector `tieScores` of 33 scores the classes 1 and
16 both have the score 0.9, the highest.  `std::sort` first exchanges the
elements at the positions 0 and 16 (median of three), which brings class 16 in
front of class 1, and nothing moves them afterwards: the line of class 16 is
printed before the line of class 1. -/
theorem C9_ties_counterexample :
    tieScores.length = 33 ∧
    tieScores[1]? = some 900000 ∧ tieScores[16]? = some 900000 ∧
    (stdSort (fun a b : Int × Nat => intGt a.1 b.1) (PrintResults.pairs 0 tieScores)).take 3 =
      [(900000, 16), (900000, 1), (700000, 2)] ∧
    (PrintResults intGt stdSort fmtMicro
      (some "1,cat\n2,dog\n16,fish\n32,owl\n".toList) [] tieScores).out =
      ["fish with confidence of 0.900000\n", "cat with confidence of 0.900000\n",
        "dog with confidence of 0.700000\n"] := by
  decide

/-- C9, amended: for a score vector of at most 32 entries, which `std::sort`
orders by insertion sort, and a comparison that is irreflexive and transitive
(as `>` is on floats, NaN included), two classes `i < j` whose scores are equal,
or compare alike, stand in the sorted vector with `i` before `j`; and
since `PrintResults` prints the positions 0, 1, 2 in this order, the line of
class `i` is printed before the line of class `j` whenever both are printed. -/
theorem C9_ties_by_index_short {σ : Type} (gt : σ → σ → Bool)
    (fmtF : σ → String) (file : Option (List Char)) (labels0 labels : List String)
    (results : List σ) (hirr : ∀ a, gt a a = false)
    (htr : ∀ a b c, gt a b = true → gt b c = true → gt a c = true)
    (hshort : results.length ≤ ISORT_MAX)
    (hload : LoadLabels file labels0 = ⟨[], .ok labels⟩) :
    (∀ (a b i j : Nat) (s t : σ),
      (stdSort (fun a b => gt a.1 b.1) (PrintResults.pairs 0 results))[a]? = some (s, i) →
      (stdSort (fun a b => gt a.1 b.1) (PrintResults.pairs 0 results))[b]? = some (t, j) →
      i < j → (s = t ∨ SameScore gt s t) → a < b) ∧
    (∀ out : List String,
      PrintResults gt stdSort fmtF file labels0 results = ⟨out, .ok labels⟩ →
      ∃ (p0 p1 p2 : σ × Nat) (rest : List (σ × Nat)) (l0 l1 l2 : String),
        stdSort (fun a b => gt a.1 b.1) (PrintResults.pairs 0 results) =
          p0 :: p1 :: p2 :: rest ∧
        labels[p0.2]? = some l0 ∧ labels[p1.2]? = some l1 ∧ labels[p2.2]? = some l2 ∧
        out = [resultLine fmtF l0 p0.1, resultLine fmtF l1 p1.1, resultLine fmtF l2 p2.1]) := by
  have hs := stdSort_short (fun a b : σ × Nat => gt a.1 b.1) (PrintResults.pairs 0 results)
    (by rw [pairs_length]; exact hshort)
  have hperm := insertionSort_perm (fun a b : σ × Nat => gt a.1 b.1)
    (PrintResults.pairs 0 results)
  obtain ⟨-, hst⟩ := insertionSort_inv (fun a b : σ × Nat => gt a.1 b.1)
    (fun a => hirr a.1) (fun a b c => htr a.1 b.1 c.1) (PrintResults.pairs 0 results)
  rw [← hs] at hperm hst
  constructor
  · intro a b i j s t ha hb hij hsame0
    have hsame : SameScore gt s t := by
      rcases hsame0 with h | h
      · rw [h]; exact fun z => ⟨rfl, rfl⟩
      · exact h
    have hi := mem_pairs results (s, i) (hperm.mem_iff.1 (List.getElem?_mem ha))
    have hj := mem_pairs results (t, j) (hperm.mem_iff.1 (List.getElem?_mem hb))
    simp only at hi hj
    have hsub : List.Sublist [(s, i), (t, j)] (PrintResults.pairs 0 results) := by
      apply pair_sublist_of_getElem? _ _ _ i j hij
      · rw [pairs_getElem?, hi]; simp
      · rw [pairs_getElem?, hj]; simp
    have hsub2 := hst (s, i) (t, j) (fun z => ⟨(hsame z.1).1, (hsame z.1).2⟩) hsub
    have hnd := (hperm.nodup_iff).2 (pairs_nodup results)
    exact pos_lt_of_pair_sublist (s, i) (t, j) _ hnd hsub2 a b ha hb
  · intro out hout
    rw [PrintResults_eq gt stdSort fmtF file labels0 labels results hload] at hout
    simp only [Result.mk.injEq] at hout
    obtain ⟨ho, hv⟩ := hout
    have hok : (PrintResults.display fmtF labels
        (stdSort (fun a b => gt a.1 b.1) (PrintResults.pairs 0 results)) 0 3).val = .ok () := by
      cases hd : (PrintResults.display fmtF labels
        (stdSort (fun a b => gt a.1 b.1) (PrintResults.pairs 0 results)) 0 3).val with
      | error e => rw [hd] at hv; cases hv
      | ok u => rfl
    rw [display_ok_iff] at hok
    obtain ⟨p0, h0, c0⟩ := hok 0 (by omega)
    obtain ⟨p1, h1, c1⟩ := hok 1 (by omega)
    obtain ⟨p2, h2, c2⟩ := hok 2 (by omega)
    rcases hsl : stdSort (fun a b => gt a.1 b.1) (PrintResults.pairs 0 results) with
      _ | ⟨q0, _ | ⟨q1, _ | ⟨q2, rest⟩⟩⟩
    · rw [hsl] at h0; simp at h0
    · rw [hsl] at h1; simp at h1
    · rw [hsl] at h2; simp at h2
    · rw [hsl] at h0 h1 h2 ho
      simp only [Nat.zero_add, List.getElem?_cons_zero, List.getElem?_cons_succ,
        Option.some.injEq] at h0 h1 h2
      subst h0; subst h1; subst h2
      refine ⟨q0, q1, q2, rest, labels[q0.2], labels[q1.2], labels[q2.2], hsl,
        List.getElem?_eq_getElem c0, List.getElem?_eq_getElem c1,
        List.getElem?_eq_getElem c2, ?_⟩
      rw [← ho, display_three fmtF labels q0 q1 q2 rest _ _ _
        (List.getElem?_eq_getElem c0) (List.getElem?_eq_getElem c1)
        (List.getElem?_eq_getElem c2)]

/-- Witness of C9: three equal scores, and the first 32 scores of `tieScores`,
where the classes 1 and 16 keep their order. -/
theorem C9_ties_by_index_short_witness :
    (∀ a : Int, intGt a a = false) ∧
    (∀ a b c : Int, intGt a b = true → intGt b c = true → intGt a c = true) ∧
    (tieScores.take 32).length ≤ ISORT_MAX ∧
    LoadLabels (some "1,cat\n2,dog\n16,fish\n32,owl\n".toList) [] =
      ⟨[], .ok (["", "cat", "dog"] ++ List.replicate 13 "" ++ ["fish"] ++
        List.replicate 15 "" ++ ["owl"])⟩ ∧
    (PrintResults intGt stdSort fmtMicro
      (some "1,cat\n2,dog\n16,fish\n32,owl\n".toList) [] (tieScores.take 32)).out =
      ["cat with confidence of 0.900000\n", "fish with confidence of 0.900000\n",
        "dog with confidence of 0.700000\n"] ∧
    PrintResults intGt stdSort fmtMicro
      (some "0,cat\n1,dog\n2,fish\n".toList) [] [500000, 500000, 500000] =
      ⟨["cat with confidence of 0.500000\n", "dog with confidence of 0.500000\n",
        "fish with confidence of 0.500000\n"], .ok ["cat", "dog", "fish"]⟩ ∧
    (∀ (a b i j : Nat) (s t : Int),
      (stdSort (fun a b : Int × Nat => intGt a.1 b.1)
        (PrintResults.pairs 0 (tieScores.take 32)))[a]? = some (s, i) →
      (stdSort (fun a b : Int × Nat => intGt a.1 b.1)
        (PrintResults.pairs 0 (tieScores.take 32)))[b]? = some (t, j) →
      i < j → (s = t ∨ SameScore intGt s t) → a < b) :=
  ⟨intGt_swo.irrefl, intGt_swo.trans, by decide, by decide, by decide, by decide,
    (C9_ties_by_index_short intGt fmtMicro
      (some "1,cat\n2,dog\n16,fish\n32,owl\n".toList) []
      (["", "cat", "dog"] ++ List.replicate 13 "" ++ ["fish"] ++
        List.replicate 15 "" ++ ["owl"]) (tieScores.take 32)
      intGt_swo.irrefl intGt_swo.trans (by decide) (by decide)).1⟩

/-- C10 as stated fails: with a labels file that is present but empty and the
single score 0.5, no bounds-checked access fails and no line is printed, because
the unchecked `labels[curr.second]` leaves the table at `i = 0`. -/
theorem C10_short_vector_counterexample :
    LoadLabels (some []) [] = ⟨[], .ok []⟩ ∧
    PrintResults intGt stdSort fmtMicro (some []) [] [500000] =
      ⟨[], .error .undefined⟩ ∧
    ¬ ((PrintResults intGt stdSort fmtMicro (some []) [] [500000]).val =
        .error (.threw "std::out_of_range") ∧
      (PrintResults intGt stdSort fmtMicro (some []) [] [500000]).out.length =
        1) := by
  decide

/-- C10, amended: with the labels loaded, `PrintResults` completes exactly when
there are at least three scores and the class ids at positions 0, 1, 2 of the
sorted vector are below the length of the table; and for `n < 3` scores whose
class ids are all below the length of the table, `sortedResults.at(i)` throws
at `i = n`, after exactly `n` result lines.  This holds for every score vector
and every comparison. -/
theorem C10_out_of_range {σ : Type} (gt : σ → σ → Bool)
    (fmtF : σ → String) (file : Option (List Char)) (labels0 labels : List String)
    (results : List σ)
    (hload : LoadLabels file labels0 = ⟨[], .ok labels⟩) :
    ((PrintResults gt stdSort fmtF file labels0 results).val = .ok labels ↔
      3 ≤ results.length ∧
      ∀ i, i < 3 → ∀ p,
        (stdSort (fun a b => gt a.1 b.1) (PrintResults.pairs 0 results))[i]? = some p →
        p.2 < labels.length) ∧
    (results.length < 3 → results.length ≤ labels.length →
      (stdSort (fun a b => gt a.1 b.1) (PrintResults.pairs 0 results))[results.length]? = none ∧
      (∀ i, i < results.length →
        (stdSort (fun a b => gt a.1 b.1) (PrintResults.pairs 0 results))[i]? ≠ none) ∧
      (PrintResults gt stdSort fmtF file labels0 results).val =
        .error (.threw "std::out_of_range") ∧
      (PrintResults gt stdSort fmtF file labels0 results).out.length = results.length) := by
  have hlen := stdSort_length (fun a b : σ × Nat => gt a.1 b.1) (PrintResults.pairs 0 results)
  rw [pairs_length] at hlen
  rw [PrintResults_eq gt stdSort fmtF file labels0 labels results hload]
  simp only
  constructor
  · have hmap : ∀ r : Except Exit Unit,
        (r.map (fun _ => labels) = .ok labels ↔ r = .ok ()) := by
      intro r
      cases r with
      | error e => simp [Except.map]
      | ok u => simp [Except.map]
    rw [hmap, display_ok_iff]
    constructor
    · intro h
      obtain ⟨p2, hp2, -⟩ := h 2 (by omega)
      obtain ⟨hlt, -⟩ := List.getElem?_eq_some.1 hp2
      refine ⟨by omega, ?_⟩
      intro i hi p hp
      obtain ⟨q, hq, hc⟩ := h i hi
      rw [Nat.zero_add, hp] at hq
      simp only [Option.some.injEq] at hq
      rw [hq]; exact hc
    · rintro ⟨h3, h⟩ j hj
      have hlt : 0 + j <
          (stdSort (fun a b => gt a.1 b.1) (PrintResults.pairs 0 results)).length := by
        omega
      refine ⟨_, List.getElem?_eq_getElem hlt, ?_⟩
      apply h j hj
      rw [List.getElem?_eq_getElem (by omega)]
      simp
  · intro hn hcover
    have hs := stdSort_short (fun a b : σ × Nat => gt a.1 b.1) (PrintResults.pairs 0 results)
      (by rw [pairs_length]; unfold ISORT_MAX; omega)
    have hperm := insertionSort_perm (fun a b : σ × Nat => gt a.1 b.1)
      (PrintResults.pairs 0 results)
    rw [← hs] at hperm
    have hc : ∀ p ∈ stdSort (fun a b => gt a.1 b.1) (PrintResults.pairs 0 results),
        p.2 < labels.length := by
      intro p hp
      have h := mem_pairs results p (hperm.mem_iff.1 hp)
      obtain ⟨hlt, -⟩ := List.getElem?_eq_some.1 h
      omega
    obtain ⟨hv, hl⟩ := display_short fmtF labels _ hc 3 0 (by omega) (by omega)
    refine ⟨List.getElem?_eq_none (by omega), ?_, ?_, ?_⟩
    · intro i hi
      rw [List.getElem?_eq_getElem (by omega)]
      simp
    · rw [hv]; rfl
    · rw [hl]; omega

/-- Witness of C10: two scores with the labels cat, dog, fish. -/
theorem C10_out_of_range_witness :
    LoadLabels (some "0,cat\n1,dog\n2,fish\n".toList) [] = ⟨[], .ok ["cat", "dog", "fish"]⟩ ∧
    PrintResults intGt stdSort fmtMicro
      (some "0,cat\n1,dog\n2,fish\n".toList) [] [100000, 900000] =
      ⟨["dog with confidence of 0.900000\n", "cat with confidence of 0.100000\n"],
        .error (.threw "std::out_of_range")⟩ ∧
    ([100000, 900000] : List Int).length < 3 ∧
    ([100000, 900000] : List Int).length ≤ ["cat", "dog", "fish"].length ∧
    (PrintResults intGt stdSort fmtMicro
      (some "0,cat\n1,dog\n2,fish\n".toList) [] [100000, 900000]).out.length =
      [100000, 900000].length :=
  ⟨by decide, by decide, by decide, by decide,
    ((C10_out_of_range intGt fmtMicro
      (some "0,cat\n1,dog\n2,fish\n".toList) [] ["cat", "dog", "fish"] [100000, 900000]
      (by decide)).2 (by decide) (by decide)).2.2.2⟩

end AdapterSelection
